/-
Verification of the texlab formatter core (crates/formatter/src/{tex,math}.rs).

Shallow embedding conventions:
* Rust `String` is modelled as `List Char` (`Str`); Rust byte lengths and byte
  slicing coincide with character counts on the ASCII data the formatter
  manipulates.
* Every formatter returns `Option (List Str)`: `none` models a Rust abort
  (an `unwrap()` of `None`, an out-of-bounds index, or an overflow-checked
  `usize` subtraction that underflows); `some lines` models normal return.
* Field and function names follow the Rust source (`TexParent.format`,
  `MathEnvironment.alignAtAmp` for `align_at_amp`, ...).  The `for` loops of
  the source become explicit recursions (`go...` functions) whose state
  mirrors the mutable locals (`line`, `l`, `output`).
-/
import Mathlib

namespace TexFmt

/-! ### Strings as character lists -/

abbrev Str := List Char

/-- Rust `str::len` (byte length; equals character count on ASCII data). -/
def strLen (s : Str) : Nat := s.length

/-- Rust `str::trim_end`. -/
def trimEnd (s : Str) : Str := (s.reverse.dropWhile Char.isWhitespace).reverse

/-- Rust `str::trim_start`. -/
def trimStart (s : Str) : Str := s.dropWhile Char.isWhitespace

/-- Rust `str::trim`. -/
def trimBoth (s : Str) : Str := trimStart (trimEnd s)

/-- Rust `str::ends_with`. -/
def strEndsWith (s suffix : Str) : Bool := suffix.isSuffixOf s

/-- Rust `" ".repeat(n)` and friends. -/
def strRepeat (c : Char) (n : Nat) : Str := List.replicate n c

/-- Rust `Vec<String>::join("")`. -/
def strJoin (ls : List Str) : Str := ls.flatten

/-- Rust `Vec<String>::join(sep)`. -/
def strJoinSep (sep : Str) (ls : List Str) : Str := List.intercalate sep ls

/-- Rust `str::contains(char)`. -/
def containsChar (s : Str) (c : Char) : Bool := s.contains c

/-- Rust `str::split(sep)` (non-overlapping, left to right; a sentinel at the
end of the string yields a trailing empty piece, like Rust's `split`).
`go` carries the reversed prefix of the current piece. -/
def splitOnSeq (sep : Str) (s : Str) : List Str :=
  go s []
where
  go : Str → Str → List Str
    | [], acc => [acc.reverse]
    | c :: rest, acc =>
      if h : sep ≠ [] ∧ sep.isPrefixOf (c :: rest) then
        acc.reverse :: go (List.drop sep.length (c :: rest)) []
      else
        go rest (c :: acc)
  termination_by s _ => s.length
  decreasing_by
    all_goals simp only [List.length_drop, List.length_cons]
    all_goals try omega
    all_goals (have hpos : 0 < sep.length := List.length_pos.mpr h.1; omega)

/-- Checked `usize` subtraction: Rust `a - b` aborts (in a checked build) when
`b > a`; the formatter's budget subtractions are exactly such sites. -/
def usizeSub (a b : Nat) : Option Nat := if b ≤ a then some (a - b) else none

/-- `indent_str` from tex.rs. -/
def indent_str (indent_level tabstop : Nat) : Str :=
  strRepeat ' ' (indent_level * tabstop)

/-! ### The prose / math IR (tex.rs `TexElement`, math.rs `MathElement`) -/

/-- `TexKeyVal` (tex.rs): a `KEY_VALUE_PAIR`, key plus optional value. -/
structure TexKeyVal where
  key : Str
  value : Option Str
deriving Repr

mutual

inductive TexElement
  | Parent (p : TexParent)
  | Command (c : TexCommand)
  | Environment (e : TexEnvironmentParent)
  | Text (s : Str)
  | KeyValPair (k : TexKeyVal)
  | CurlyGroup (g : TexCurlyGroup)
  | MixedGroup (g : TexMixedGroup)
  | CurlyGroupWordList (g : TexCurlyGroupWordList)
  | BrackGroup (g : TexBrackGroup)
  | EnumItem (it : TexEnumItem)
  | Formula (f : TexFormula)
  | Section (s : TexSection)
  | BlankLine
  | Comment (s : Str)
  | BeginEnvironment (b : TexBeginEnvironment)
  | EndEnvironment (e : TexEndEnvironment)

inductive TexParent
  | mk (children : List TexElement)

inductive TexCommand
  | mk (name : Str) (args : List TexElement)

inductive TexCurlyGroup
  | mk (body : TexParent)

inductive TexBrackGroup
  | mk (children : List TexElement)

inductive TexMixedGroup
  | mk (children : List TexElement) (open_delim close_delim : Str)

inductive TexCurlyGroupWordList
  | mk (children : List TexElement)

inductive TexEnvironmentParent
  | Tex (t : TexEnvironment)
  | Math (m : MathEnvironment)

inductive TexEnvironment
  | mk (body : TexParent)

inductive TexBeginEnvironment
  | mk (name : Str) (args : List TexElement) (tail : List TexElement)

inductive TexEndEnvironment
  | mk (name : Str) (tail : List TexElement)

inductive TexEnumItem
  | mk (body : TexParent)

inductive TexFormula
  | mk (inline : Bool) (body : MathParent)

inductive TexSection
  | mk (kind : Str) (name : Str) (body : TexParent)

inductive MathElement
  | Parent (p : MathParent)
  | Command (c : MathCommand)
  | Environment (e : MathEnvironment)
  | Text (s : Str)
  | CurlyGroup (g : MathCurlyGroup)
  | MixedGroup (g : MathMixedGroup)
  | BrackGroup (g : MathBrackGroup)

inductive MathParent
  | mk (children : List MathElement)

inductive MathBrackGroup
  | mk (children : List MathElement)

inductive MathCurlyGroup
  | mk (body : MathParent)

inductive MathMixedGroup
  | mk (children : List MathElement) (open_delim close_delim : Str)

inductive MathCommand
  | mk (name : Str) (args : List MathElement)

inductive MathEnvironment
  | mk (name : Str) (args : List MathElement) (body : MathParent)

end

/-! Field accessors mirroring the Rust struct fields. -/

def TexParent.children : TexParent → List TexElement
  | .mk cs => cs

def TexCommand.name : TexCommand → Str
  | .mk n _ => n

def TexCommand.args : TexCommand → List TexElement
  | .mk _ a => a

def TexCurlyGroup.body : TexCurlyGroup → TexParent
  | .mk b => b

def TexBrackGroup.children : TexBrackGroup → List TexElement
  | .mk cs => cs

def TexMixedGroup.children : TexMixedGroup → List TexElement
  | .mk cs _ _ => cs

def TexMixedGroup.open_delim : TexMixedGroup → Str
  | .mk _ o _ => o

def TexMixedGroup.close_delim : TexMixedGroup → Str
  | .mk _ _ c => c

def TexCurlyGroupWordList.children : TexCurlyGroupWordList → List TexElement
  | .mk cs => cs

def TexEnvironment.body : TexEnvironment → TexParent
  | .mk b => b

def TexBeginEnvironment.name : TexBeginEnvironment → Str
  | .mk n _ _ => n

def TexBeginEnvironment.args : TexBeginEnvironment → List TexElement
  | .mk _ a _ => a

def TexBeginEnvironment.tail : TexBeginEnvironment → List TexElement
  | .mk _ _ t => t

def TexEndEnvironment.name : TexEndEnvironment → Str
  | .mk n _ => n

def TexEndEnvironment.tail : TexEndEnvironment → List TexElement
  | .mk _ t => t

def TexEnumItem.body : TexEnumItem → TexParent
  | .mk b => b

def TexFormula.inline : TexFormula → Bool
  | .mk i _ => i

def TexFormula.body : TexFormula → MathParent
  | .mk _ b => b

def TexSection.kind : TexSection → Str
  | .mk k _ _ => k

def TexSection.name : TexSection → Str
  | .mk _ n _ => n

def TexSection.body : TexSection → TexParent
  | .mk _ _ b => b

def MathParent.children : MathParent → List MathElement
  | .mk cs => cs

def MathBrackGroup.children : MathBrackGroup → List MathElement
  | .mk cs => cs

def MathCurlyGroup.body : MathCurlyGroup → MathParent
  | .mk b => b

def MathMixedGroup.children : MathMixedGroup → List MathElement
  | .mk cs _ _ => cs

def MathMixedGroup.open_delim : MathMixedGroup → Str
  | .mk _ o _ => o

def MathMixedGroup.close_delim : MathMixedGroup → Str
  | .mk _ _ c => c

def MathCommand.name : MathCommand → Str
  | .mk n _ => n

def MathCommand.args : MathCommand → List MathElement
  | .mk _ a => a

def MathEnvironment.name : MathEnvironment → Str
  | .mk n _ _ => n

def MathEnvironment.args : MathEnvironment → List MathElement
  | .mk _ a _ => a

def MathEnvironment.body : MathEnvironment → MathParent
  | .mk _ _ b => b

/-! ### Helpers for the formatters -/

/-- `TexKeyVal::format` (tex.rs 868-874). -/
def TexKeyVal.format (kv : TexKeyVal) (_indent_level _tabstop _line_length : Nat) :
    Option (List Str) :=
  match kv.value with
  | some val => some [kv.key ++ "=".data ++ val]
  | none => some [kv.key]

/-- The command names that are always flushed onto their own line
(tex.rs 178-195). -/
def specialCommandNames : List Str :=
  ["\\newline".data, "\\newpage".data, "\\usepackage".data, "\\documentclass".data,
   "\\setlength".data, "\\pagestyle".data, "\\newcommand".data, "\\renewcommand".data,
   "\\author".data, "\\title".data, "\\maketitle".data, "\\date".data,
   "\\institute".data, "\\usetheme".data, "\\usecolortheme".data]

/-- tex.rs 216-225: first characters of a following `Text` sibling that close
tightly after a command (no separator is inserted before them). -/
def headIsTightTex (txt : Str) : Bool :=
  match txt.head? with
  | some c => (['\x7d', ')', ']', '.', ',', ';', '~'] : List Char).contains c
  | none => false

/-- tex.rs 348-355, math.rs 166-211: punctuation heads that suppress the
separating space after a group. -/
def headIsTightGroup (txt : Str) : Bool :=
  match txt.head? with
  | some c => (['.', ',', '^', '_', '-'] : List Char).contains c
  | none => false

/-- tex.rs 373-397: punctuation heads that suppress the separating space after
an inline formula. -/
def headIsTightFormula (txt : Str) : Bool :=
  match txt.head? with
  | some c => (['.', ',', '?', ';', '-'] : List Char).contains c
  | none => false

/-- math.rs 113-118: punctuation heads that suppress the space after a math
command. -/
def headIsTightMathText (txt : Str) : Bool :=
  match txt.head? with
  | some c => ([',', '^', '_', '\'', '.'] : List Char).contains c
  | none => false

/-- The mutable locals of the `TexParent::format` loop (tex.rs 156-161):
current `line`, the recorded length `l` and the completed `output` lines. -/
structure PState where
  line : Str
  l : Nat
  output : List Str
deriving Repr

/-- The mutable locals of the `MathParent::format` loop (math.rs 83-85). -/
structure MState where
  line : Str
  output : List Str
deriving Repr

/-- tex.rs 270-278: the greedy word-packing loop of the `Text` arm of
`TexParent::format`.  State `(line, l, output)` threads the mutable locals. -/
def textWordLoop (indent : Str) (line_length : Nat) :
    List Str → Str → Nat → List Str → Str × Nat × List Str
  | [], line, l, output => (line, l, output)
  | word :: rest, line, l, output =>
    if line_length < strLen line + strLen (trimEnd word) then
      textWordLoop indent line_length rest (indent ++ word ++ " ".data) (strLen indent)
        (output ++ [trimEnd line])
    else
      textWordLoop indent line_length rest (line ++ word ++ " ".data) l output

/-! ### The formatter family (tex.rs / math.rs `format` methods)

Every function returns `Option (List Str)`; `none` models an abort. -/

set_option maxHeartbeats 2000000

mutual

/-- `TexElement::format` (tex.rs 109-131). -/
def TexElement.format : TexElement → Nat → Nat → Nat → Option (List Str)
  | .Command cmd, i, t, L => TexCommand.format cmd i t L
  | .Environment env, i, t, L => TexEnvironmentParent.format env i t L
  | .Text text, _, _, _ => some [trimBoth text]
  | .Parent p, i, t, L => TexParent.format p i t L
  | .KeyValPair kvp, i, t, L => TexKeyVal.format kvp i t L
  | .CurlyGroup g, i, t, L => TexCurlyGroup.format g i t L
  | .BrackGroup g, i, t, L => TexBrackGroup.format g i t L
  | .CurlyGroupWordList g, i, t, L => TexCurlyGroupWordList.format g i t L
  | .MixedGroup g, i, t, L => TexMixedGroup.format g i t L
  | .EnumItem it, i, t, L => TexEnumItem.format it i t L
  | .Formula f, i, t, L => TexFormula.format f i t L
  | .Section s, i, t, L => TexSection.format s i t L
  | .BlankLine, _, _, _ => some [[]]
  | .Comment text, _, _, _ => some [trimBoth text]
  | .BeginEnvironment b, i, t, L => TexBeginEnvironment.format b i t L
  | .EndEnvironment e, i, t, L => TexEndEnvironment.format e i t L
termination_by e _ _ _ => (sizeOf e, 1)

/-- `for` loops of the form `output.extend(child.format(...))` over a list of
elements (tex.rs 591-593, 661-663, 763-765, 803-805). -/
def TexElement.formatList : List TexElement → Nat → Nat → Nat → Option (List Str)
  | [], _, _, _ => some []
  | c :: rest, i, t, L => do
    let f ← TexElement.format c i t L
    let tl ← TexElement.formatList rest i t L
    some (f ++ tl)
termination_by l _ _ _ => (sizeOf l, 1)

/-- tex.rs 171-174: trim the current line and append the `%` comment guard
unless one is already present. -/
def commentGuard (line : Str) : Str :=
  let lineT := trimEnd line
  if strEndsWith lineT "%".data then lineT else lineT ++ "%".data

/-- The `Command` arm of the `TexParent::format` loop (tex.rs 168-253),
acting on the state `(line0, l, output0)` left by the top-of-iteration
check. -/
def TexParent.stepCommand (cmd : TexCommand) (next : Option TexElement)
    (indent_level tabstop line_length : Nat) (indent line0 : Str) (l : Nat)
    (output0 : List Str) : Option PState := do
  let flat ← TexCommand.format cmd 0 0 0
  let cmdln := strLen (strJoin flat)
  let (line1, output1) :=
    if line_length ≤ strLen line0 + cmdln ∧ trimBoth line0 ≠ [] then
      (indent, output0 ++ [trimEnd (commentGuard line0)])
    else (line0, output0)
  if specialCommandNames.contains cmd.name then
    let (line2, output2) :=
      if trimBoth line1 ≠ [] then (([] : Str), output1 ++ [trimEnd line1])
      else (line1, output1)
    let fmt ← TexCommand.format cmd indent_level tabstop line_length
    some ⟨line2, l, output2 ++ fmt.map trimEnd⟩
  else if cmd.name = "\\\\".data then
    let line2 := line1 ++ "\\\\".data
    some ⟨[], 0, output1 ++ [trimBoth line2]⟩
  else do
    let rem ← usizeSub line_length (strLen line1)
    let fmt ← TexCommand.format cmd indent_level tabstop rem
    if fmt.length = 1 ∧ strLen line1 + strLen (fmt.headD []) ≤ line_length then
      let line2 := line1 ++ trimBoth (fmt.headD [])
      let line3 :=
        match next with
        | some (.Text txt) =>
          if trimBoth txt ≠ [] ∧ headIsTightTex txt = false then
            if strEndsWith line2 "\x7d".data = false then line2 ++ "~".data
            else line2 ++ " ".data
          else line2
        | _ => line2
      let line4 :=
        match next with
        | some (.Formula _) => line3 ++ " ".data
        | _ => line3
      some ⟨line4, l, output1⟩
    else do
      let rem2 ← usizeSub line_length (strLen line1)
      let fmt2 ← TexCommand.format cmd indent_level tabstop rem2
      if fmt2.length = 1 then
        some ⟨line1 ++ trimBoth (fmt2.headD []), l, output1⟩
      else
        match fmt2 with
        | [] => none
        | f0 :: restf =>
          some ⟨[], l, (output1 ++ [line1 ++ trimBoth f0]) ++ restf.map (fun s => indent ++ s)⟩
termination_by (sizeOf cmd, 2)

/-- The inline branch of the `Formula` arm of the `TexParent::format` loop
(tex.rs 366-401). -/
def TexParent.stepFormulaInline (formula : TexFormula) (next : Option TexElement)
    (indent_level tabstop line_length : Nat) (line0 : Str) (l : Nat)
    (output0 : List Str) : Option PState := do
  let fmt ← TexFormula.format formula indent_level tabstop line_length
  if line_length < strLen (strJoin fmt) + strLen line0 then
    let output1 := output0 ++ [line0]
    if fmt.length = 1 then
      let line1 := trimBoth (strJoin fmt)
      let line2 :=
        match next with
        | some (.Text txt) =>
          if headIsTightFormula txt = false then line1 ++ " ".data else line1
        | _ => line1
      let line3 :=
        match next with
        | some (.Formula _) => line2 ++ " ".data
        | _ => line2
      some ⟨line3, l, output1⟩
    else
      some ⟨[], l, output1 ++ fmt⟩
  else
    let line1 := line0 ++ trimBoth (strJoin fmt)
    let line2 :=
      match next with
      | some (.Text txt) =>
        if headIsTightFormula txt = false then line1 ++ " ".data else line1
      | _ => line1
    let line3 :=
      match next with
      | some (.Formula _) => line2 ++ " ".data
      | _ => line2
    some ⟨line3, l, output0⟩

/-- The `Text` arm of the `TexParent::format` loop (tex.rs 255-279). -/
def TexParent.stepText (text : Str) (next : Option TexElement)
    (line_length : Nat) (indent line0 : Str) (l : Nat) (output0 : List Str) :
    Option PState :=
  if trimBoth text ≠ [] then
    if line_length = 0 then
      some ⟨line0 ++ text, l, output0⟩
    else if strLen (trimBoth text) + strLen line0 < line_length then
      let line1 := line0 ++ trimBoth text ++ " ".data
      let line2 :=
        match next with
        | some (.Command cmd) =>
          if strEndsWith line1 "~ ".data then trimBoth line1
          else if cmd.args.isEmpty then line1.dropLast
          else line1
        | _ => line1
      some ⟨line2, l, output0⟩
    else
      let (line1, l1, output1) :=
        textWordLoop indent line_length (splitOnSeq " ".data (trimBoth text)) line0 l output0
      some ⟨line1, l1, output1⟩
  else
    some ⟨line0, l, output0⟩

/-- The `Environment` arm of the `TexParent::format` loop (tex.rs 281-292). -/
def TexParent.stepEnvironment (env : TexEnvironmentParent)
    (indent_level tabstop line_length : Nat) (indent line0 : Str) (l : Nat)
    (output0 : List Str) : Option PState := do
  let (line1, l1, output1) :=
    if trimBoth line0 ≠ [] then (indent, strLen indent, output0 ++ [line0])
    else (line0, l, output0)
  let fmt ← TexEnvironmentParent.format env indent_level tabstop line_length
  some ⟨line1, l1, output1 ++ fmt.map trimEnd⟩
termination_by (sizeOf env, 2)

/-- The `BeginEnvironment` arm of the `TexParent::format` loop
(tex.rs 293-300). -/
def TexParent.stepBeginEnvironment (env : TexBeginEnvironment)
    (indent_level tabstop line_length : Nat) (line0 : Str) (l : Nat)
    (output0 : List Str) : Option PState := do
  let (line1, l1, output1) :=
    if trimBoth line0 ≠ [] then (([] : Str), 0, output0 ++ [line0])
    else (line0, l, output0)
  let fmt ← TexBeginEnvironment.format env indent_level tabstop line_length
  some ⟨line1, l1, output1 ++ fmt⟩
termination_by (sizeOf env, 2)

/-- The `EndEnvironment` arm of the `TexParent::format` loop (tex.rs 301-308). -/
def TexParent.stepEndEnvironment (env : TexEndEnvironment)
    (indent_level tabstop line_length : Nat) (indent line0 : Str) (l : Nat)
    (output0 : List Str) : Option PState := do
  let (line1, l1, output1) :=
    if trimBoth line0 ≠ [] then (indent, strLen indent, output0 ++ [line0])
    else (line0, l, output0)
  let fmt ← TexEndEnvironment.format env indent_level tabstop line_length
  some ⟨line1, l1, output1 ++ fmt⟩
termination_by (sizeOf env, 2)

/-- The `Parent` arm of the `TexParent::format` loop (tex.rs 309-324). -/
def TexParent.stepParent (p : TexParent)
    (indent_level tabstop line_length : Nat) (indent line0 : Str) (l : Nat)
    (output0 : List Str) : Option PState := do
  let fmt ← TexParent.format p indent_level tabstop line_length
  match fmt with
  | [] => none
  | f0 :: _ =>
    let line1 := line0 ++ indent ++ f0
    let output1 := output0 ++ [line1]
    if 1 < fmt.length then
      some ⟨indent ++ fmt.getLastD [], l,
        output1 ++ ((fmt.drop 1).dropLast.map (fun s => indent ++ s))⟩
    else
      some ⟨indent, l, output1⟩
termination_by (sizeOf p, 2)

/-- The `CurlyGroup` arm of the `TexParent::format` loop (tex.rs 328-334). -/
def TexParent.stepCurlyGroup (g : TexCurlyGroup)
    (indent_level tabstop line_length : Nat) (line0 : Str) (l : Nat)
    (output0 : List Str) : Option PState := do
  let rem ← usizeSub line_length (strLen line0)
  let fmt ← TexCurlyGroup.format g indent_level tabstop rem
  match fmt with
  | [] => none
  | f0 :: restf => some ⟨[], l, (output0 ++ [line0 ++ f0]) ++ restf⟩
termination_by (sizeOf g, 2)

/-- The `MixedGroup` arm of the `TexParent::format` loop (tex.rs 341-356). -/
def TexParent.stepMixedGroup (g : TexMixedGroup) (next : Option TexElement)
    (indent_level tabstop line_length : Nat) (line0 : Str) (l : Nat)
    (output0 : List Str) : Option PState := do
  let fmt ← TexMixedGroup.format g indent_level tabstop line_length
  let line1 := line0 ++ trimEnd (strJoin fmt)
  let line2 :=
    match next with
    | some (.Text txt) => if headIsTightGroup txt = false then line1 ++ " ".data else line1
    | _ => line1
  some ⟨line2, l, output0⟩
termination_by (sizeOf g, 2)

/-- The `EnumItem` arm of the `TexParent::format` loop (tex.rs 357-364). -/
def TexParent.stepEnumItem (item : TexEnumItem)
    (indent_level tabstop line_length : Nat) (line0 : Str)
    (output0 : List Str) : Option PState := do
  let output1 := if trimBoth line0 ≠ [] then output0 ++ [trimBoth line0] else output0
  let line1 : Str := []
  let rem ← usizeSub line_length (strLen line1)
  let fmt ← TexEnumItem.format item indent_level tabstop rem
  some ⟨line1, 0, output1 ++ fmt⟩
termination_by (sizeOf item, 2)

/-- The display branch of the `Formula` arm of the `TexParent::format` loop
(tex.rs 402-409). -/
def TexParent.stepFormulaDisplay (formula : TexFormula)
    (indent_level tabstop line_length : Nat) (indent line0 : Str) (l : Nat)
    (output0 : List Str) : Option PState := do
  let (line1, l1, output1) :=
    if trimBoth line0 ≠ [] then (indent, strLen indent, output0 ++ [trimEnd line0])
    else (line0, l, output0)
  let fmt ← TexFormula.format formula indent_level tabstop line_length
  some ⟨line1, l1, output1 ++ fmt⟩

/-- The `Section` arm of the `TexParent::format` loop (tex.rs 411-417). -/
def TexParent.stepSection (sec : TexSection)
    (indent_level tabstop line_length : Nat) (line0 : Str) (l : Nat)
    (output0 : List Str) : Option PState := do
  let (line1, output1) :=
    if trimBoth line0 ≠ [] then (([] : Str), output0 ++ [trimEnd line0])
    else (line0, output0)
  let fmt ← TexSection.format sec indent_level tabstop line_length
  some ⟨line1, l, output1 ++ fmt⟩
termination_by (sizeOf sec, 2)

/-- The body of one iteration of the `TexParent::format` loop
(tex.rs 161-427): the overlong-line check at the top of the iteration,
`l = line.len()`, then the arm of the current child.  `next` is
`self.children.get(i + 1)`; the `KeyValPair` arm and the wildcard arm
(which catches `Comment` and whitespace-only `Text`) leave the state
unchanged. -/
def TexParent.formatStep (child : TexElement) (next : Option TexElement)
    (indent_level tabstop line_length : Nat) (st : PState) : Option PState :=
  let indent := indent_str indent_level tabstop
  let (line0, output0) :=
    if line_length < strLen st.line then (([] : Str), st.output ++ [st.line])
    else (st.line, st.output)
  let l := strLen line0
  match child with
  | .Command cmd =>
    TexParent.stepCommand cmd next indent_level tabstop line_length indent line0 l output0
  | .Text text =>
    TexParent.stepText text next line_length indent line0 l output0
  | .Environment env =>
    TexParent.stepEnvironment env indent_level tabstop line_length indent line0 l output0
  | .BeginEnvironment env =>
    TexParent.stepBeginEnvironment env indent_level tabstop line_length line0 l output0
  | .EndEnvironment env =>
    TexParent.stepEndEnvironment env indent_level tabstop line_length indent line0 l output0
  | .Parent p =>
    TexParent.stepParent p indent_level tabstop line_length indent line0 l output0
  | .KeyValPair _ => some ⟨line0, l, output0⟩
  | .CurlyGroup g =>
    TexParent.stepCurlyGroup g indent_level tabstop line_length line0 l output0
  | .BrackGroup g => do
    let fmt ← TexBrackGroup.format g indent_level tabstop line_length
    some ⟨line0 ++ strJoin fmt, l, output0⟩
  | .CurlyGroupWordList g => do
    let fmt ← TexCurlyGroupWordList.format g indent_level tabstop line_length
    some ⟨line0 ++ strJoin fmt, l, output0⟩
  | .MixedGroup g =>
    TexParent.stepMixedGroup g next indent_level tabstop line_length line0 l output0
  | .EnumItem item =>
    TexParent.stepEnumItem item indent_level tabstop line_length line0 output0
  | .Formula formula =>
    if formula.inline then
      TexParent.stepFormulaInline formula next indent_level tabstop line_length line0 l output0
    else
      TexParent.stepFormulaDisplay formula indent_level tabstop line_length indent line0 l
        output0
  | .Section sec =>
    TexParent.stepSection sec indent_level tabstop line_length line0 l output0
  | .BlankLine =>
    let output1 := if trimBoth line0 ≠ [] then output0 ++ [trimBoth line0] else output0
    some ⟨[], 0, output1 ++ [[]]⟩
  | .Comment _ => some ⟨line0, l, output0⟩
termination_by (sizeOf child, 1)

/-- The `for (i, child)` loop of `TexParent::format` (tex.rs 161-428). -/
def TexParent.formatGo (children : List TexElement) (indent_level tabstop line_length : Nat)
    (st : PState) : Option PState :=
  match children with
  | [] => some st
  | c :: rest => do
    let st' ← TexParent.formatStep c rest.head? indent_level tabstop line_length st
    TexParent.formatGo rest indent_level tabstop line_length st'
termination_by (sizeOf children, 1)

/-- `TexParent::format` (tex.rs 156-445): loop plus final flush. -/
def TexParent.format : TexParent → Nat → Nat → Nat → Option (List Str)
  | .mk children, indent_level, tabstop, line_length => do
    let indent := indent_str indent_level tabstop
    let st ← TexParent.formatGo children indent_level tabstop line_length
      ⟨indent, strLen indent, []⟩
    if trimBoth st.line = [] then
      some st.output
    else if strLen st.line < line_length then
      some (st.output ++ [trimEnd st.line])
    else if st.l ≤ strLen st.line then
      some (st.output ++ [st.line.take st.l, indent_str 0 tabstop ++ st.line.drop st.l])
    else none
termination_by p _ _ _ => (sizeOf p, 1)

/-- The argument loop of `TexCommand::format` (tex.rs 495-526); `fmt` and
`output` thread the mutable locals. -/
def TexCommand.formatGoArgs (name : Str) (args : List TexElement)
    (indent_level tabstop line_length : Nat) (fmt : Str) (output : List Str) :
    Option (Str × List Str) :=
  match args with
  | [] => some (fmt, output)
  | arg :: rest =>
    if line_length = 0 then do
      let af ← TexElement.format arg indent_level tabstop line_length
      TexCommand.formatGoArgs name rest indent_level tabstop line_length
        (fmt ++ trimEnd (strJoin af)) output
    else do
      let rem ← usizeSub line_length (strLen name)
      let ln ← TexElement.format arg indent_level tabstop rem
      let f0 ← ln.head?
      let (fmt1, output1) :=
        if line_length < strLen f0 + strLen fmt + strLen name then
          (([] : Str), output ++ [trimEnd fmt])
        else (fmt, output)
      let (fmt2, output2) :=
        if trimBoth f0 = [] then (([] : Str), output1 ++ [fmt1, []])
        else (fmt1 ++ trimEnd f0, output1)
      let (fmt3, output3) :=
        if 1 < ln.length then
          let outputA := if trimBoth fmt2 ≠ [] then output2 ++ [fmt2] else output2
          let outputB := outputA ++ (ln.drop 1).dropLast
          let fmtA := trimEnd (ln.getLastD [])
          let outputC := if trimBoth fmtA = [] then outputB ++ [[]] else outputB
          (fmtA, outputC)
        else (fmt2, output2)
      TexCommand.formatGoArgs name rest indent_level tabstop line_length fmt3 output3
termination_by (sizeOf args, 1)

/-- `TexCommand::format` (tex.rs 491-531). -/
def TexCommand.format : TexCommand → Nat → Nat → Nat → Option (List Str)
  | .mk name args, indent_level, tabstop, line_length => do
    let (fmt, output) ← TexCommand.formatGoArgs name args indent_level tabstop line_length
      name []
    if fmt ≠ [] then some (output ++ [fmt]) else some output
termination_by c _ _ _ => (sizeOf c, 1)

/-- `TexCurlyGroup::format` (tex.rs 545-566).  (The source also binds an
unused `l = bodytext.len()`.) -/
def TexCurlyGroup.format : TexCurlyGroup → Nat → Nat → Nat → Option (List Str)
  | .mk body, indent_level, tabstop, line_length => do
    if line_length = 0 then do
      let bodytext ← TexParent.format body indent_level tabstop line_length
      some ["\x7b".data ++ trimBoth (strJoin bodytext) ++ "\x7d".data]
    else do
      let bodytext ← TexParent.format body indent_level tabstop line_length
      if (bodytext.map strLen).sum ≤ line_length then
        some ["\x7b".data ++ trimBoth (strJoin bodytext) ++ "\x7d".data]
      else do
        let bodytext2 ← TexParent.format body (indent_level + 1) tabstop line_length
        let indent := indent_str (indent_level + 1) tabstop
        some ((("\x7b".data : Str) :: bodytext2.map (fun ln => indent ++ ln)) ++ ["\x7d".data])
termination_by g _ _ _ => (sizeOf g, 1)

/-- `TexBrackGroup::format` (tex.rs 589-595). -/
def TexBrackGroup.format : TexBrackGroup → Nat → Nat → Nat → Option (List Str)
  | .mk children, indent_level, tabstop, line_length => do
    let output ← TexElement.formatList children indent_level tabstop line_length
    some ["[".data ++ strJoinSep ", ".data output ++ "]".data]
termination_by g _ _ _ => (sizeOf g, 1)

/-- The child loop of `TexMixedGroup::format` (tex.rs 628-639), accumulating
onto the output string. -/
def TexMixedGroup.formatGoChildren (children : List TexElement)
    (indent_level tabstop line_length : Nat) (acc : Str) : Option Str :=
  match children with
  | [] => some acc
  | c :: rest => do
    let f ← TexElement.format c indent_level tabstop line_length
    TexMixedGroup.formatGoChildren rest indent_level tabstop line_length
      (acc ++ trimBoth (strJoinSep ", ".data (splitOnSeq ",".data (strJoin f))))
termination_by (sizeOf children, 1)

/-- `TexMixedGroup::format` (tex.rs 625-642). -/
def TexMixedGroup.format : TexMixedGroup → Nat → Nat → Nat → Option (List Str)
  | .mk children od cd, indent_level, tabstop, line_length => do
    let mid ← TexMixedGroup.formatGoChildren children indent_level tabstop line_length []
    some [od ++ mid ++ cd]
termination_by g _ _ _ => (sizeOf g, 1)

/-- `TexCurlyGroupWordList::format` (tex.rs 659-665). -/
def TexCurlyGroupWordList.format : TexCurlyGroupWordList → Nat → Nat → Nat → Option (List Str)
  | .mk children, indent_level, tabstop, line_length => do
    let output ← TexElement.formatList children indent_level tabstop line_length
    some ["\x7b".data ++ trimBoth (strJoinSep ", ".data output) ++ "\x7d".data]
termination_by g _ _ _ => (sizeOf g, 1)

/-- The trailing loop of `TexEnvironmentParent::format` (tex.rs 698-703):
re-emits the `BlankLine`/`Comment` children of the body. -/
def TexEnvironmentParent.formatGoTail (children : List TexElement)
    (indent_level tabstop line_length : Nat) : Option (List Str) :=
  match children with
  | [] => some []
  | c :: rest => do
    let cur ←
      if (match c with | .BlankLine => true | .Comment _ => true | _ => false) then
        TexElement.format c indent_level tabstop line_length
      else some []
    let tl ← TexEnvironmentParent.formatGoTail rest indent_level tabstop line_length
    some (cur ++ tl)
termination_by (sizeOf children, 1)

/-- `TexEnvironmentParent::format` (tex.rs 695-708). -/
def TexEnvironmentParent.format : TexEnvironmentParent → Nat → Nat → Nat → Option (List Str)
  | .Tex (TexEnvironment.mk (TexParent.mk bodyChildren)), indent_level, tabstop, line_length => do
    let output ← TexEnvironment.format (.mk (.mk bodyChildren)) indent_level tabstop line_length
    let extra ← TexEnvironmentParent.formatGoTail bodyChildren indent_level tabstop line_length
    some (output ++ extra)
  | .Math math, indent_level, tabstop, line_length =>
    MathEnvironment.format math indent_level tabstop line_length
termination_by e _ _ _ => (sizeOf e, 1)

/-- `TexBeginEnvironment::format`, argument loop (tex.rs 756-759). -/
def TexBeginEnvironment.formatGoArgs (args : List TexElement)
    (indent_level tabstop line_length : Nat) (line : Str) : Option Str :=
  match args with
  | [] => some line
  | arg :: rest => do
    let fmt ← TexElement.format arg indent_level tabstop line_length
    match fmt with
    | [] => none
    | f0 :: _ =>
      TexBeginEnvironment.formatGoArgs rest indent_level tabstop line_length (line ++ f0)
termination_by (sizeOf args, 1)

/-- `TexBeginEnvironment::format` (tex.rs 748-767). -/
def TexBeginEnvironment.format : TexBeginEnvironment → Nat → Nat → Nat → Option (List Str)
  | .mk _ args tail, indent_level, tabstop, line_length => do
    let indent := if 0 < indent_level then indent_level - 1 else 0
    let line0 := indent_str indent tabstop ++ "\\begin".data
    let line ← TexBeginEnvironment.formatGoArgs args indent_level tabstop line_length line0
    let output := if trimBoth line ≠ [] then [line] else []
    let tailOut ← TexElement.formatList tail indent_level tabstop line_length
    some (output ++ tailOut)
termination_by b _ _ _ => (sizeOf b, 1)

/-- `TexEndEnvironment::format` (tex.rs 788-807).  Note that the tail is
formatted at the *reduced* indent level (`indent`), as in the source. -/
def TexEndEnvironment.format : TexEndEnvironment → Nat → Nat → Nat → Option (List Str)
  | .mk name tail, indent_level, tabstop, line_length => do
    let indent := if 0 < indent_level then indent_level - 1 else 0
    let line := indent_str indent tabstop ++ "\\end\x7b".data ++ name ++ "\x7d".data
    let output := if trimBoth line ≠ [] then [line] else []
    let tailOut ← TexElement.formatList tail indent tabstop line_length
    some (output ++ tailOut)
termination_by e _ _ _ => (sizeOf e, 1)

/-- `TexEnvironment::format` (tex.rs 830-840). -/
def TexEnvironment.format : TexEnvironment → Nat → Nat → Nat → Option (List Str)
  | .mk (TexParent.mk children), indent_level, tabstop, line_length =>
    let subindent :=
      match children.head? with
      | some (.BeginEnvironment child) =>
        if child.name = "document".data ∨ child.name = "verbatim".data then 0 else 1
      | _ => 1
    TexParent.format (.mk children) (indent_level + subindent) tabstop line_length
termination_by t _ _ _ => (sizeOf t, 1)

/-- `TexEnumItem::format` (tex.rs 887-908). -/
def TexEnumItem.format : TexEnumItem → Nat → Nat → Nat → Option (List Str)
  | .mk body, indent_level, tabstop, line_length => do
    let rem ← usizeSub line_length 6
    let output ← TexParent.format body indent_level tabstop rem
    let f0 ← output.head?
    let space : Str := if f0.head? ≠ some '[' then " ".data else []
    let indent := indent_str indent_level tabstop
    let fmt0 := indent ++ "\\item".data ++ space ++ trimBoth f0
    let indent2 := indent_str (indent_level + 1) tabstop
    some (fmt0 :: (output.drop 1).map (fun ln => indent2 ++ ln))
termination_by it _ _ _ => (sizeOf it, 1)

/-- `TexFormula::format` (tex.rs 923-950). -/
def TexFormula.format : TexFormula → Nat → Nat → Nat → Option (List Str)
  | .mk inline body, indent_level, tabstop, line_length => do
    if inline then do
      let fmt ← MathParent.format body indent_level tabstop line_length
      if strLen (trimBoth (strJoin fmt)) + 6 ≤ line_length then
        some [trimBoth ("\\( ".data ++ trimBoth (strJoin fmt) ++ " \\)".data)]
      else do
        let fmt2 ← MathParent.format body indent_level tabstop line_length
        some ((("\\( ".data : Str) :: fmt2) ++ ["\\)".data])
    else do
      let indent := indent_str indent_level tabstop
      let fmt ← MathParent.format body (indent_level + 1) tabstop line_length
      some (((indent ++ "\\[".data) :: fmt) ++ [indent ++ "\\]".data])

/-- `TexSection::format` (tex.rs 980-987). -/
def TexSection.format : TexSection → Nat → Nat → Nat → Option (List Str)
  | .mk kind name body, indent_level, tabstop, line_length => do
    let b ← TexParent.format body indent_level tabstop line_length
    some (([] : Str) :: (kind ++ "\x7b".data ++ name ++ "\x7d".data) :: ([] : Str) :: b)
termination_by s _ _ _ => (sizeOf s, 1)

/-- `MathElement::format` (math.rs 56-66). -/
def MathElement.format : MathElement → Nat → Nat → Nat → Option (List Str)
  | .Command cmd, i, t, L => MathCommand.format cmd i t L
  | .Environment env, i, t, L => MathEnvironment.format env i t L
  | .Text text, _, _, _ => some [trimBoth text]
  | .Parent p, i, t, L => MathParent.format p i t L
  | .CurlyGroup g, i, t, L => MathCurlyGroup.format g i t L
  | .BrackGroup g, i, t, L => MathBrackGroup.format g i t L
  | .MixedGroup g, i, t, L => MathMixedGroup.format g i t L
termination_by e _ _ _ => (sizeOf e, 1)

/-- `output.extend(child.format(...))` loops over math elements
(math.rs 255-258). -/
def MathElement.formatList : List MathElement → Nat → Nat → Nat → Option (List Str)
  | [], _, _, _ => some []
  | c :: rest, i, t, L => do
    let f ← MathElement.format c i t L
    let tl ← MathElement.formatList rest i t L
    some (f ++ tl)
termination_by l _ _ _ => (sizeOf l, 1)

/-- The body of one iteration of the `MathParent::format` loop
(math.rs 86-215).  `next` is `self.children.get(i + 1)`. -/
def MathParent.formatStep (child : MathElement) (next : Option MathElement)
    (indent_level tabstop line_length : Nat) (st : MState) : Option MState :=
  match child with
  | .Command cmd => do
    let rem ← usizeSub line_length (strLen st.line)
    let f ← MathCommand.format cmd indent_level tabstop rem
    let fmtT := trimBoth (strJoin f)
    let (line1, output1) ← do
      if line_length < strLen fmtT + strLen st.line then do
        let (lineA, outputA) :=
          if trimBoth st.line ≠ [] then (([] : Str), st.output ++ [st.line])
          else (st.line, st.output)
        let fmt2 ← MathCommand.format cmd indent_level tabstop line_length
        if fmt2.length = 1 then
          some (lineA ++ trimEnd (fmt2.headD []), outputA)
        else
          match fmt2 with
          | [] => none
          | _ => some (lineA ++ fmt2.getLastD [], outputA ++ fmt2.dropLast)
      else
        some (st.line ++ fmtT, st.output)
    if strEndsWith line1 "\\\\".data then
      some ⟨[], output1 ++ [trimBoth line1]⟩
    else
      let line2 :=
        match next with
        | some (.Text txt) =>
          if headIsTightMathText txt = false then line1 ++ " ".data else line1
        | _ => line1
      let line3 :=
        match next with
        | some (.Command _) => line2 ++ " ".data
        | _ => line2
      some ⟨line3, output1⟩
  | .Text text =>
    if trimBoth text ≠ [] then
      let line1 := st.line ++ trimBoth text
      let line2 :=
        if next.isSome ∧ strEndsWith line1 "^".data = false then
          match next with
          | some (.MixedGroup _) => line1
          | some (.Text txt) =>
            if (txt.head? = some '^') = False ∧
                (strEndsWith line1 "&".data = false ∨ (txt.head? = some '=') = False) then
              line1 ++ " ".data
            else line1
          | _ => line1 ++ " ".data
        else line1
      some ⟨line2, st.output⟩
    else some ⟨st.line, st.output⟩
  | .Environment env => do
    let (line1, output1) :=
      if trimBoth st.line ≠ [] then (([] : Str), st.output ++ [st.line])
      else (st.line, st.output)
    let f ← MathEnvironment.format env indent_level tabstop line_length
    some ⟨line1, output1 ++ f⟩
  | .Parent p => do
    let (line1, output1) :=
      if trimBoth st.line ≠ [] then (([] : Str), st.output ++ [st.line])
      else (st.line, st.output)
    let fmt ← MathParent.format p indent_level tabstop line_length
    if trimBoth (strJoin fmt) ≠ [] then some ⟨line1, output1 ++ fmt⟩
    else some ⟨line1, output1⟩
  | .CurlyGroup g => do
    let f ← MathCurlyGroup.format g indent_level tabstop line_length
    let line1 := st.line ++ trimBoth (strJoin f)
    let line2 :=
      match next with
      | some (.Text txt) => if headIsTightGroup txt = false then line1 ++ " ".data else line1
      | _ => line1
    let line3 :=
      match next with
      | some (.Command _) => line2 ++ " ".data
      | _ => line2
    some ⟨line3, st.output⟩
  | .BrackGroup g => do
    let f ← MathBrackGroup.format g indent_level tabstop line_length
    let line1 := st.line ++ trimBoth (strJoin f)
    let line2 :=
      match next with
      | some (.Text txt) => if headIsTightGroup txt = false then line1 ++ " ".data else line1
      | _ => line1
    some ⟨line2, st.output⟩
  | .MixedGroup g => do
    let f ← MathMixedGroup.format g indent_level tabstop line_length
    let line1 := st.line ++ trimBoth (strJoin f)
    let line2 :=
      match next with
      | some (.Text txt) => if headIsTightGroup txt = false then line1 ++ " ".data else line1
      | _ => line1
    let line3 :=
      match next with
      | some (.Command _) => line2 ++ " ".data
      | _ => line2
    some ⟨line3, st.output⟩
termination_by (sizeOf child, 1)

/-- The `for (i, child)` loop of `MathParent::format` (math.rs 86-215). -/
def MathParent.formatGo (children : List MathElement) (indent_level tabstop line_length : Nat)
    (st : MState) : Option MState :=
  match children with
  | [] => some st
  | c :: rest => do
    let st' ← MathParent.formatStep c rest.head? indent_level tabstop line_length st
    MathParent.formatGo rest indent_level tabstop line_length st'
termination_by (sizeOf children, 1)

/-- `MathParent::format` (math.rs 83-223): loop, final flush, indent map. -/
def MathParent.format : MathParent → Nat → Nat → Nat → Option (List Str)
  | .mk children, indent_level, tabstop, line_length => do
    let st ← MathParent.formatGo children indent_level tabstop line_length ⟨[], []⟩
    let output :=
      if trimBoth st.line ≠ [] then st.output ++ [trimEnd st.line] else st.output
    some (output.map (fun ln => indent_str indent_level tabstop ++ ln))
termination_by p _ _ _ => (sizeOf p, 1)

/-- `MathBrackGroup::format` (math.rs 254-260). -/
def MathBrackGroup.format : MathBrackGroup → Nat → Nat → Nat → Option (List Str)
  | .mk children, indent_level, tabstop, line_length => do
    let output ← MathElement.formatList children indent_level tabstop line_length
    some ["[".data ++ strJoinSep ", ".data output ++ "]".data]
termination_by g _ _ _ => (sizeOf g, 1)

/-- `MathCurlyGroup::format` (math.rs 274-285). -/
def MathCurlyGroup.format : MathCurlyGroup → Nat → Nat → Nat → Option (List Str)
  | .mk body, indent_level, tabstop, line_length => do
    let bodytext ← MathParent.format body indent_level tabstop line_length
    let output := bodytext.map trimBoth
    some [("\x7b".data : Str), strJoinSep " ".data output, "\x7d".data]
termination_by g _ _ _ => (sizeOf g, 1)

/-- The child loop of `MathMixedGroup::format` (math.rs 318-325). -/
def MathMixedGroup.formatGoChildren (children : List MathElement)
    (indent_level tabstop line_length : Nat) (acc : Str) : Option Str :=
  match children with
  | [] => some acc
  | c :: rest => do
    let f ← MathElement.format c indent_level tabstop line_length
    MathMixedGroup.formatGoChildren rest indent_level tabstop line_length
      (acc ++ trimBoth (strJoin f))
termination_by (sizeOf children, 1)

/-- `MathMixedGroup::format` (math.rs 315-328). -/
def MathMixedGroup.format : MathMixedGroup → Nat → Nat → Nat → Option (List Str)
  | .mk children od cd, indent_level, tabstop, line_length => do
    let mid ← MathMixedGroup.formatGoChildren children indent_level tabstop line_length []
    some [od ++ mid ++ cd]
termination_by g _ _ _ => (sizeOf g, 1)

/-- The argument loop of `MathCommand::format` (math.rs 365-371). -/
def MathCommand.formatGoArgs (args : List MathElement)
    (indent_level tabstop line_length : Nat) (acc : Str) : Option Str :=
  match args with
  | [] => some acc
  | arg :: rest => do
    let f ← MathElement.format arg indent_level tabstop line_length
    MathCommand.formatGoArgs rest indent_level tabstop line_length
      (acc ++ trimBoth (strJoin f))
termination_by (sizeOf args, 1)

/-- `MathCommand::format` (math.rs 362-376). -/
def MathCommand.format : MathCommand → Nat → Nat → Nat → Option (List Str)
  | .mk name args, indent_level, tabstop, line_length => do
    let acc ← MathCommand.formatGoArgs args indent_level tabstop line_length name
    if name ≠ "\\\\".data then some [acc ++ " ".data] else some [acc]
termination_by c _ _ _ => (sizeOf c, 1)

/-- The argument loop of `MathEnvironment::format` (math.rs 454-459). -/
def MathEnvironment.formatGoArgs (args : List MathElement)
    (indent_level tabstop line_length : Nat) (line : Str) : Option Str :=
  match args with
  | [] => some line
  | arg :: rest => do
    let f ← MathElement.format arg indent_level tabstop line_length
    MathEnvironment.formatGoArgs rest indent_level tabstop line_length (line ++ strJoin f)
termination_by (sizeOf args, 1)

/-- `MathEnvironment::format` (math.rs 447-468). -/
def MathEnvironment.format : MathEnvironment → Nat → Nat → Nat → Option (List Str)
  | .mk name args body, indent_level, tabstop, line_length => do
    let indent := indent_str indent_level tabstop
    let line0 := indent ++ "\\begin\x7b".data ++ name ++ "\x7d".data
    let line ← MathEnvironment.formatGoArgs args indent_level tabstop line_length line0
    let mid ← MathEnvironment.alignAtAmp (.mk name args body) (indent_level + 1) tabstop
      line_length
    some ((line :: mid) ++ [indent ++ "\\end\x7b".data ++ name ++ "\x7d".data])
termination_by e _ _ _ => (sizeOf e, 1)

/-- `MathEnvironment::align_at_amp` (math.rs 470-513). -/
def MathEnvironment.alignAtAmp : MathEnvironment → Nat → Nat → Nat → Option (List Str)
  | .mk _ _ body, indent_level, tabstop, line_length => do
    let lines ← MathParent.format body indent_level tabstop line_length
    if (lines.filter (fun ln => containsChar ln '&')).length = 0 then
      some lines
    else
      let split_lines : List (List Str) :=
        lines.map (fun ln => (splitOnSeq "&".data ln).map trimBoth)
      let num_columns := ((split_lines.map List.length).max?).getD 0
      let max_widths := split_lines.foldl
        (fun mw cols => mw.mapIdx (fun j m =>
          if j < cols.length ∧ m < strLen (cols.getD j []) then strLen (cols.getD j []) else m))
        (List.replicate num_columns 0)
      let inner_indent := indent_str indent_level tabstop
      let aligned_lines := (split_lines.map (fun cols =>
          inner_indent ++ strJoinSep " & ".data
            (cols.mapIdx (fun j col =>
              col ++ strRepeat ' ' (max_widths.getD j 0 - strLen col))))).filter
        (fun ln => trimBoth ln ≠ [])
      some aligned_lines
termination_by e _ _ _ => (sizeOf e, 0)

end

/-! ### The external syntax tree (input of the classifier)

The formatter consumes `syntax::latex` trees (rowan).  A node is a kind plus
an ordered list of child elements; an element is a node or a token; a token
carries its kind and text.  `SyntaxKind` lists every kind the formatter
sources mention; `WHITESPACE` and `WORD` are representative token kinds of
the same grammar. -/

inductive SyntaxKind
  | ROOT | PREAMBLE
  | SECTION | SUBSECTION | SUBSUBSECTION | PARAGRAPH | CHAPTER | PART
  | GENERIC_COMMAND | PACKAGE_INCLUDE | CLASS_INCLUDE | HREF | IMPORT | CAPTION
  | LATEX_INCLUDE | MATH_OPERATOR | GRAPHICS_INCLUDE | TIKZ_LIBRARY_IMPORT
  | CITATION | COLOR_DEFINITION | COLOR_REFERENCE | LABEL_DEFINITION
  | LABEL_REFERENCE | LABEL_REFERENCE_RANGE | INKSCAPE_INCLUDE
  | BIBTEX_INCLUDE | BIBLATEX_INCLUDE | NEW_COMMAND_DEFINITION
  | GLOSSARY_ENTRY_REFERENCE | GLOSSARY_ENTRY_DEFINITION
  | ENVIRONMENT | TEXT | KEY | ERROR
  | CURLY_GROUP | BRACK_GROUP | BRACK_GROUP_KEY_VALUE | BRACK_GROUP_WORD
  | CURLY_GROUP_WORD | CURLY_GROUP_WORD_LIST | CURLY_GROUP_COMMAND
  | CURLY_GROUP_KEY_VALUE | KEY_VALUE_PAIR | KEY_VALUE_BODY | VALUE
  | MIXED_GROUP | ENUM_ITEM | EQUATION | FORMULA | BEGIN | END
  | COMMENT | COMMAND_NAME | WHITESPACE | WORD
deriving DecidableEq, Repr

/-- A token of the external syntax tree: kind plus text. -/
structure SyntaxToken where
  kind : SyntaxKind
  text : Str
deriving DecidableEq, Repr

mutual

inductive SyntaxNode
  | mk (kind : SyntaxKind) (children : List SyntaxElement)

inductive SyntaxElement
  | node (n : SyntaxNode)
  | token (t : SyntaxToken)

end

def SyntaxNode.kind : SyntaxNode → SyntaxKind
  | .mk k _ => k

/-- rowan `children_with_tokens`: the direct child elements. -/
def SyntaxNode.childrenWithTokens : SyntaxNode → List SyntaxElement
  | .mk _ cs => cs

def SyntaxElement.kind : SyntaxElement → SyntaxKind
  | .node n => n.kind
  | .token t => t.kind

/-- rowan `children`: the direct child nodes (tokens skipped). -/
def SyntaxNode.children (n : SyntaxNode) : List SyntaxNode :=
  n.childrenWithTokens.filterMap (fun e =>
    match e with
    | .node c => some c
    | .token _ => none)

/-- rowan `first_child`. -/
def SyntaxNode.firstChild (n : SyntaxNode) : Option SyntaxNode :=
  n.children.head?

mutual

/-- rowan `to_string` of a node: concatenation of all token texts beneath it. -/
def SyntaxNode.toStr : SyntaxNode → Str
  | .mk _ cs => SyntaxElement.listToStr cs

def SyntaxElement.toStr : SyntaxElement → Str
  | .node n => n.toStr
  | .token t => t.text

def SyntaxElement.listToStr : List SyntaxElement → Str
  | [] => []
  | e :: rest => e.toStr ++ SyntaxElement.listToStr rest

end

mutual

/-- rowan `first_token`: the first token in document order, if any. -/
def SyntaxNode.firstToken : SyntaxNode → Option SyntaxToken
  | .mk _ cs => SyntaxElement.listFirstToken cs

def SyntaxElement.firstToken : SyntaxElement → Option SyntaxToken
  | .node n => n.firstToken
  | .token t => some t

def SyntaxElement.listFirstToken : List SyntaxElement → Option SyntaxToken
  | [] => none
  | e :: rest =>
    match SyntaxElement.firstToken e with
    | some t => some t
    | none => SyntaxElement.listFirstToken rest

end

mutual

/-- rowan `descendants_with_tokens` of an element in preorder (the element
itself first). -/
def SyntaxElement.descWithTokens : SyntaxElement → List SyntaxElement
  | .token t => [.token t]
  | .node (.mk k cs) => .node (.mk k cs) :: SyntaxElement.listDescWithTokens cs

def SyntaxElement.listDescWithTokens : List SyntaxElement → List SyntaxElement
  | [] => []
  | e :: rest => SyntaxElement.descWithTokens e ++ SyntaxElement.listDescWithTokens rest

end

/-- rowan `descendants_with_tokens` of a node. -/
def SyntaxNode.descendantsWithTokens (n : SyntaxNode) : List SyntaxElement :=
  SyntaxElement.descWithTokens (.node n)

mutual

/-- rowan `descendants`: all descendant nodes in preorder, the node itself
included. -/
def SyntaxNode.descendants : SyntaxNode → List SyntaxNode
  | .mk k cs => .mk k cs :: SyntaxElement.listDescendants cs

def SyntaxElement.listDescendants : List SyntaxElement → List SyntaxNode
  | [] => []
  | e :: rest =>
    (match e with
     | .node n => SyntaxNode.descendants n
     | .token _ => []) ++ SyntaxElement.listDescendants rest

end

/-! ### The classifier / IR builder (tex.rs / math.rs `from` functions) -/

@[simp]
theorem SyntaxKind.sizeOf_eq (k : SyntaxKind) : sizeOf k = 1 := by
  cases k <;> rfl

/-- `blanklines_and_comments` (tex.rs 9-22). -/
def blanklinesAndComments (node : SyntaxNode) : List TexElement :=
  go node.descendantsWithTokens
where
  go : List SyntaxElement → List TexElement
    | [] => []
    | .token t :: rest =>
      (if t.text = "\n\n".data then [TexElement.BlankLine] else []) ++
        (if t.kind = .COMMENT then [TexElement.Comment t.text] else []) ++ go rest
    | .node _ :: rest => go rest

/-- `TexKeyVal::from` (tex.rs 849-866). -/
def TexKeyVal.from (n : SyntaxNode) : TexKeyVal :=
  let keys := (n.children.filter (fun c => c.kind = .KEY)).map SyntaxNode.toStr
  let vals := (n.children.filter (fun c => c.kind = .VALUE)).map SyntaxNode.toStr
  { key := trimBoth (strJoin keys)
    value := if vals.isEmpty then none else some (trimBoth (strJoin vals)) }

/-- Rust `String::replace("\n", " ")` (the pattern is a single character). -/
def replaceNewlines (s : Str) : Str := s.map (fun c => if c = '\n' then ' ' else c)

/-- The alternating `Text`/`BlankLine` children built by the
`TEXT | KEY | ERROR` arm of `TexElement::from` (tex.rs 80-84). -/
def textBlankAlternation : List Str → List TexElement
  | [] => []
  | w :: rest => TexElement.Text w :: TexElement.BlankLine :: textBlankAlternation rest

/-- The math environment names (tex.rs 684-690). -/
def mathEnvironmentNames : List Str :=
  ["math".data, "displaymath".data, "displaymath*".data, "equation".data,
   "equation*".data, "align".data, "align*".data, "alignat".data, "alignat*".data,
   "gather".data, "gather*".data, "multline".data, "multline*".data,
   "flalign".data, "flalign*".data, "xalignat".data, "xalignat*".data,
   "xxalignat".data, "xxalignat*".data, "array".data, "cases".data, "cases*".data,
   "split".data, "IEEEeqnarray".data, "IEEEeqnarray*".data, "dcases".data,
   "rcases".data, "tcases".data, "empheq".data, "dmath".data, "eqnarray".data]

/-- The operators spaced out by the math text normalisation (math.rs 27). -/
def mathOps : List Str :=
  ["+".data, "-".data, "*".data, "/".data, ">".data, "<".data]

/-- The `TEXT | KEY` arm of `MathElement::from` (math.rs 24-37): trim, space
out operators, normalise commas. -/
def mathNormalizeText (txt0 : Str) : Str :=
  let txt := trimBoth txt0
  if 1 < strLen txt then
    let txt := mathOps.foldl
      (fun txt op => strJoinSep (" ".data ++ op ++ " ".data)
        ((splitOnSeq op txt).map trimBoth)) txt
    strJoinSep ", ".data ((splitOnSeq ",".data txt).map trimBoth)
  else txt

/-- The argument kinds captured by `TexBeginEnvironment::from` (tex.rs 728-741). -/
def beginArgKinds : List SyntaxKind :=
  [.CURLY_GROUP, .CURLY_GROUP_WORD, .CURLY_GROUP_COMMAND, .CURLY_GROUP_WORD_LIST,
   .CURLY_GROUP_KEY_VALUE, .BRACK_GROUP, .BRACK_GROUP_WORD, .BRACK_GROUP_KEY_VALUE,
   .MIXED_GROUP]

mutual

/-- `TexElement::from` (tex.rs 44-107). -/
def TexElement.from : SyntaxNode → Option TexElement
  | .mk k cs =>
    match k with
    | .ROOT | .PREAMBLE => do
      some (.Parent (← TexParent.from (.mk k cs)))
    | .SECTION | .SUBSECTION | .SUBSUBSECTION | .PARAGRAPH | .CHAPTER | .PART => do
      some (.Section (← TexSection.from (.mk k cs)))
    | .GENERIC_COMMAND | .PACKAGE_INCLUDE | .CLASS_INCLUDE | .HREF | .IMPORT
    | .CAPTION | .LATEX_INCLUDE | .MATH_OPERATOR | .GRAPHICS_INCLUDE
    | .TIKZ_LIBRARY_IMPORT | .CITATION | .COLOR_DEFINITION | .COLOR_REFERENCE
    | .LABEL_DEFINITION | .LABEL_REFERENCE | .LABEL_REFERENCE_RANGE
    | .INKSCAPE_INCLUDE | .BIBTEX_INCLUDE | .BIBLATEX_INCLUDE
    | .NEW_COMMAND_DEFINITION | .GLOSSARY_ENTRY_REFERENCE
    | .GLOSSARY_ENTRY_DEFINITION => do
      some (.Command (← TexCommand.from (.mk k cs)))
    | .ENVIRONMENT => do
      some (.Environment (← TexEnvironmentParent.from (.mk k cs)))
    | .TEXT | .KEY | .ERROR =>
      let text := SyntaxNode.toStr (.mk k cs)
      let words := splitOnSeq "\n\n".data text
      if 1 < words.length then
        some (.Parent (.mk (textBlankAlternation words)))
      else
        some (.Text (replaceNewlines (SyntaxNode.toStr (.mk k cs))))
    | .CURLY_GROUP => do
      some (.CurlyGroup (← TexCurlyGroup.from (.mk k cs)))
    | .BRACK_GROUP | .BRACK_GROUP_KEY_VALUE => do
      some (.BrackGroup (← TexBrackGroup.from (.mk k cs)))
    | .CURLY_GROUP_WORD | .CURLY_GROUP_WORD_LIST => do
      some (.CurlyGroupWordList (← TexCurlyGroupWordList.from (.mk k cs)))
    | .KEY_VALUE_PAIR => some (.KeyValPair (TexKeyVal.from (.mk k cs)))
    | .MIXED_GROUP => do
      some (.MixedGroup (← TexMixedGroup.from (.mk k cs)))
    | .ENUM_ITEM => do
      some (.EnumItem (← TexEnumItem.from (.mk k cs)))
    | .EQUATION | .FORMULA => do
      some (.Formula (← TexFormula.from (.mk k cs)))
    | .BEGIN => do
      some (.BeginEnvironment (← TexBeginEnvironment.from (.mk k cs)))
    | .END => do
      some (.EndEnvironment (← TexEndEnvironment.from (.mk k cs)))
    | _ => some (.Text [])
termination_by n => (sizeOf n, 9)

/-- The filter/map over `children_with_tokens` of `TexParent::from`
(tex.rs 138-154): nodes are classified, `HREF`/`COMMENT` tokens and `"\n\n"`
tokens become `Text`, all other tokens are dropped. -/
def TexParent.fromGoChildren : List SyntaxElement → Option (List TexElement)
  | [] => some []
  | .node c :: rest => do
    let e ← TexElement.from c
    let tl ← TexParent.fromGoChildren rest
    some (e :: tl)
  | .token t :: rest =>
    if t.kind = .HREF ∨ t.kind = .COMMENT ∨ t.text = "\n\n".data then do
      let tl ← TexParent.fromGoChildren rest
      some (TexElement.Text t.text :: tl)
    else
      TexParent.fromGoChildren rest
termination_by l => (sizeOf l, 9)

/-- `TexParent::from` (tex.rs 138-154). -/
def TexParent.from : SyntaxNode → Option TexParent
  | .mk k cs => do
    some (.mk (← TexParent.fromGoChildren cs))
termination_by n => (sizeOf n, 7)

/-- `node.children().map(TexElement::from)` loops (tex.rs 578-585, 617-619,
652-656, 817-821). -/
def TexElement.fromNodeList : List SyntaxElement → Option (List TexElement)
  | [] => some []
  | .node c :: rest => do
    let e ← TexElement.from c
    let tl ← TexElement.fromNodeList rest
    some (e :: tl)
  | .token _ :: rest => TexElement.fromNodeList rest
termination_by l => (sizeOf l, 9)

/-- The argument loop of `TexCommand::from` (tex.rs 458-485). -/
def TexCommand.fromGoArgs : List SyntaxElement → Option (List TexElement)
  | [] => some []
  | .token _ :: rest => TexCommand.fromGoArgs rest
  | .node c :: rest => do
    let cur ←
      match c.kind with
      | .CURLY_GROUP_COMMAND =>
        some [TexElement.CurlyGroupWordList (.mk
          ((c.childrenWithTokens.filter (fun el => el.kind = .COMMAND_NAME)).map
            (fun el => TexElement.Text (trimBoth el.toStr))))]
      | .CURLY_GROUP => do
        some [TexElement.CurlyGroup (← TexCurlyGroup.from c)]
      | .MIXED_GROUP => do
        some [TexElement.MixedGroup (← TexMixedGroup.from c)]
      | .CURLY_GROUP_WORD => do
        some [TexElement.CurlyGroupWordList (← TexCurlyGroupWordList.from c)]
      | .CURLY_GROUP_WORD_LIST => do
        some [TexElement.CurlyGroupWordList (← TexCurlyGroupWordList.from c)]
      | .BRACK_GROUP_KEY_VALUE => do
        some [TexElement.BrackGroup (← TexBrackGroup.from c)]
      | .BRACK_GROUP_WORD => do
        some [TexElement.BrackGroup (← TexBrackGroup.from c)]
      | _ => some []
    let tl ← TexCommand.fromGoArgs rest
    some (cur ++ tl)
termination_by l => (sizeOf l, 9)

/-- `TexCommand::from` (tex.rs 454-489). -/
def TexCommand.from : SyntaxNode → Option TexCommand
  | .mk k cs => do
    let ft ← SyntaxNode.firstToken (.mk k cs)
    let args ← TexCommand.fromGoArgs cs
    some (.mk ft.text (args ++ blanklinesAndComments (.mk k cs)))
termination_by n => (sizeOf n, 8)

/-- `TexCurlyGroup::from` (tex.rs 539-543). -/
def TexCurlyGroup.from : SyntaxNode → Option TexCurlyGroup
  | .mk k cs => do
    some (.mk (← TexParent.from (.mk k cs)))
termination_by n => (sizeOf n, 8)

/-- The child loop of `TexBrackGroup::from` (tex.rs 575-585): a
`KEY_VALUE_BODY` child is expanded into its own children. -/
def TexBrackGroup.fromGoChildren : List SyntaxElement → Option (List TexElement)
  | [] => some []
  | .token _ :: rest => TexBrackGroup.fromGoChildren rest
  | .node (.mk ck ccs) :: rest => do
    let cur ←
      if ck = .KEY_VALUE_BODY then
        TexElement.fromNodeList ccs
      else do
        let e ← TexElement.from (.mk ck ccs)
        some [e]
    let tl ← TexBrackGroup.fromGoChildren rest
    some (cur ++ tl)
termination_by l => (sizeOf l, 9)

/-- `TexBrackGroup::from` (tex.rs 574-587). -/
def TexBrackGroup.from : SyntaxNode → Option TexBrackGroup
  | .mk k cs => do
    some (.mk (← TexBrackGroup.fromGoChildren cs))
termination_by n => (sizeOf n, 8)

/-- `TexMixedGroup::from` (tex.rs 605-623). -/
def TexMixedGroup.from : SyntaxNode → Option TexMixedGroup
  | .mk k cs => do
    let ft ← SyntaxNode.firstToken (.mk k cs)
    let od := ft.text
    let cd : Str :=
      if od = "\x7b".data then "\x7d".data
      else if od = "(".data then ")".data
      else if od = "[".data then "]".data
      else []
    let children ← TexElement.fromNodeList cs
    some (.mk children od cd)
termination_by n => (sizeOf n, 8)

/-- `TexCurlyGroupWordList::from` (tex.rs 650-657). -/
def TexCurlyGroupWordList.from : SyntaxNode → Option TexCurlyGroupWordList
  | .mk k cs => do
    some (.mk (← TexElement.fromNodeList cs))
termination_by n => (sizeOf n, 8)

/-- `TexEnvironmentParent::from` (tex.rs 674-693): route on the environment
name. -/
def TexEnvironmentParent.from : SyntaxNode → Option TexEnvironmentParent
  | .mk k cs => do
    let fc ← SyntaxNode.firstChild (.mk k cs)
    let fc2 ← fc.firstChild
    let fc3 ← fc2.firstChild
    let name := fc3.toStr
    if mathEnvironmentNames.contains name then do
      some (.Math (← MathEnvironment.from (.mk k cs)))
    else do
      some (.Tex (← TexEnvironment.from (.mk k cs)))
termination_by n => (sizeOf n, 8)

/-- `TexEnvironment::from` (tex.rs 815-828). -/
def TexEnvironment.from : SyntaxNode → Option TexEnvironment
  | .mk k cs => do
    some (.mk (.mk (← TexElement.fromNodeList cs)))
termination_by n => (sizeOf n, 7)

/-- The argument filter of `TexBeginEnvironment::from` (tex.rs 726-743). -/
def TexBeginEnvironment.fromGoArgs : List SyntaxElement → Option (List TexElement)
  | [] => some []
  | .token _ :: rest => TexBeginEnvironment.fromGoArgs rest
  | .node c :: rest =>
    if beginArgKinds.contains c.kind then do
      let e ← TexElement.from c
      let tl ← TexBeginEnvironment.fromGoArgs rest
      some (e :: tl)
    else
      TexBeginEnvironment.fromGoArgs rest
termination_by l => (sizeOf l, 9)

/-- `TexBeginEnvironment::from` (tex.rs 718-746). -/
def TexBeginEnvironment.from : SyntaxNode → Option TexBeginEnvironment
  | .mk k cs => do
    let firstKey ← ((SyntaxNode.descendants (.mk k cs)).filter
      (fun d => d.kind = .KEY)).head?
    let args ← TexBeginEnvironment.fromGoArgs cs
    some (.mk firstKey.toStr args (blanklinesAndComments (.mk k cs)))
termination_by n => (sizeOf n, 8)

/-- `TexEndEnvironment::from` (tex.rs 776-786). -/
def TexEndEnvironment.from : SyntaxNode → Option TexEndEnvironment
  | .mk k cs => do
    let firstKey ← ((SyntaxNode.descendants (.mk k cs)).filter
      (fun d => d.kind = .KEY)).head?
    some (.mk firstKey.toStr (blanklinesAndComments (.mk k cs)))

/-- The body filter of `TexSection::from` (tex.rs 968-975): all child nodes
except the first one (rowan node equality is positional, so
`filter(|child| *child != first_child)` drops exactly the first child node). -/
def TexSection.fromGoBody : List SyntaxElement → Bool → Option (List TexElement)
  | [], _ => some []
  | .token _ :: rest, seen => TexSection.fromGoBody rest seen
  | .node c :: rest, seen =>
    if seen then do
      let e ← TexElement.from c
      let tl ← TexSection.fromGoBody rest seen
      some (e :: tl)
    else
      TexSection.fromGoBody rest true
termination_by l _ => (sizeOf l, 9)

/-- `TexSection::from` (tex.rs 960-978). -/
def TexSection.from : SyntaxNode → Option TexSection
  | .mk k cs => do
    let ft ← SyntaxNode.firstToken (.mk k cs)
    let fc ← SyntaxNode.firstChild (.mk k cs)
    let fc2 ← fc.firstChild
    let body ← TexSection.fromGoBody cs false
    some (.mk ft.text fc2.toStr (.mk body))
termination_by n => (sizeOf n, 8)

/-- `TexEnumItem::from` (tex.rs 881-885). -/
def TexEnumItem.from : SyntaxNode → Option TexEnumItem
  | .mk k cs => do
    some (.mk (← TexParent.from (.mk k cs)))
termination_by n => (sizeOf n, 8)

/-- `TexFormula::from` (tex.rs 917-921). -/
def TexFormula.from : SyntaxNode → Option TexFormula
  | .mk k cs => do
    let ft ← SyntaxNode.firstToken (.mk k cs)
    let inline := ft.text == "$".data || ft.text == "\\(".data
    let body ← MathParent.from (.mk k cs)
    some (.mk inline body)

/-- `MathElement::from` (math.rs 16-54). -/
def MathElement.from : SyntaxElement → Option MathElement
  | .node (.mk k cs) =>
    match k with
    | .MATH_OPERATOR | .COLOR_REFERENCE | .GENERIC_COMMAND | .LABEL_DEFINITION => do
      some (.Command (← MathCommand.from (.mk k cs)))
    | .ENVIRONMENT => do
      some (.Environment (← MathEnvironment.from (.mk k cs)))
    | .TEXT | .KEY =>
      some (.Text (mathNormalizeText (SyntaxNode.toStr (.mk k cs))))
    | .CURLY_GROUP => do
      some (.CurlyGroup (← MathCurlyGroup.from (.mk k cs)))
    | .BRACK_GROUP => do
      some (.BrackGroup (← MathBrackGroup.from (.mk k cs)))
    | .CURLY_GROUP_WORD | .CURLY_GROUP_WORD_LIST => do
      some (.CurlyGroup (← MathCurlyGroup.from (.mk k cs)))
    | .MIXED_GROUP => do
      some (.MixedGroup (← MathMixedGroup.from (.mk k cs)))
    | _ => some (.Text [])
  | .token t =>
    if t.text = "=".data then some (.Text t.text) else some (.Text [])
termination_by e => (sizeOf e, 9)

/-- `MathParent::from`'s map over `children_with_tokens` (math.rs 74-81). -/
def MathElement.fromList : List SyntaxElement → Option (List MathElement)
  | [] => some []
  | e :: rest => do
    let m ← MathElement.from e
    let tl ← MathElement.fromList rest
    some (m :: tl)
termination_by l => (sizeOf l, 9)

/-- `child.children().map(|c| MathElement::from(&SyntaxElement::Node(c)))`
loops (math.rs 240-247, 306-309). -/
def MathElement.fromListNodes : List SyntaxElement → Option (List MathElement)
  | [] => some []
  | .node c :: rest => do
    let m ← MathElement.from (.node c)
    let tl ← MathElement.fromListNodes rest
    some (m :: tl)
  | .token _ :: rest => MathElement.fromListNodes rest
termination_by l => (sizeOf l, 9)

/-- `MathParent::from` (math.rs 74-81). -/
def MathParent.from : SyntaxNode → Option MathParent
  | .mk k cs => do
    some (.mk (← MathElement.fromList cs))
termination_by n => (sizeOf n, 7)

/-- The child loop of `MathBrackGroup::from` (math.rs 236-250). -/
def MathBrackGroup.fromGoChildren : List SyntaxElement → Option (List MathElement)
  | [] => some []
  | .token _ :: rest => MathBrackGroup.fromGoChildren rest
  | .node (.mk ck ccs) :: rest => do
    let cur ←
      if ck = .KEY_VALUE_BODY then
        MathElement.fromListNodes ccs
      else do
        let m ← MathElement.from (.node (.mk ck ccs))
        some [m]
    let tl ← MathBrackGroup.fromGoChildren rest
    some (cur ++ tl)
termination_by l => (sizeOf l, 9)

/-- `MathBrackGroup::from` (math.rs 235-252). -/
def MathBrackGroup.from : SyntaxNode → Option MathBrackGroup
  | .mk k cs => do
    some (.mk (← MathBrackGroup.fromGoChildren cs))
termination_by n => (sizeOf n, 8)

/-- `MathCurlyGroup::from` (math.rs 268-272). -/
def MathCurlyGroup.from : SyntaxNode → Option MathCurlyGroup
  | .mk k cs => do
    some (.mk (← MathParent.from (.mk k cs)))
termination_by n => (sizeOf n, 8)

/-- `MathMixedGroup::from` (math.rs 295-313). -/
def MathMixedGroup.from : SyntaxNode → Option MathMixedGroup
  | .mk k cs => do
    let ft ← SyntaxNode.firstToken (.mk k cs)
    let od := ft.text
    let cd : Str :=
      if od = "\x7b".data then "\x7d".data
      else if od = "(".data then ")".data
      else if od = "[".data then "]".data
      else []
    let children ← MathElement.fromListNodes cs
    some (.mk children od cd)
termination_by n => (sizeOf n, 8)

/-- The argument loop of `MathCommand::from` (math.rs 341-357). -/
def MathCommand.fromGoArgs : List SyntaxElement → Option (List MathElement)
  | [] => some []
  | .token _ :: rest => MathCommand.fromGoArgs rest
  | .node c :: rest => do
    let cur ←
      match c.kind with
      | .CURLY_GROUP => do
        some [MathElement.CurlyGroup (← MathCurlyGroup.from c)]
      | .MIXED_GROUP => do
        some [MathElement.MixedGroup (← MathMixedGroup.from c)]
      | .CURLY_GROUP_WORD => do
        some [MathElement.CurlyGroup (← MathCurlyGroup.from c)]
      | .CURLY_GROUP_WORD_LIST => do
        some [MathElement.CurlyGroup (← MathCurlyGroup.from c)]
      | .BRACK_GROUP_KEY_VALUE => do
        some [MathElement.BrackGroup (← MathBrackGroup.from c)]
      | .BRACK_GROUP_WORD => do
        some [MathElement.BrackGroup (← MathBrackGroup.from c)]
      | _ => some []
    let tl ← MathCommand.fromGoArgs rest
    some (cur ++ tl)
termination_by l => (sizeOf l, 9)

/-- `MathCommand::from` (math.rs 337-360). -/
def MathCommand.from : SyntaxNode → Option MathCommand
  | .mk k cs => do
    let ft ← SyntaxNode.firstToken (.mk k cs)
    let args ← MathCommand.fromGoArgs cs
    some (.mk ft.text args)
termination_by n => (sizeOf n, 8)

/-- The body builder of `MathEnvironment::from` (math.rs 429-442): the child
elements minus the (positionally compared) first and, when it was the
`CURLY_GROUP` name argument, second child node, classified and filtered by
`!e.format(0, 0, 100).join("").is_empty()`; an abort inside that `format`
propagates. -/
def MathEnvironment.fromGoBody (elems : List SyntaxElement) (nodeIdx : Nat)
    (dropSecond : Bool) : Option (List MathElement) :=
  match elems with
  | [] => some []
  | .node c :: rest =>
    if nodeIdx = 0 ∨ (nodeIdx = 1 ∧ dropSecond) then
      MathEnvironment.fromGoBody rest (nodeIdx + 1) dropSecond
    else do
      let m ← MathElement.from (.node c)
      let f ← m.format 0 0 100
      let tl ← MathEnvironment.fromGoBody rest (nodeIdx + 1) dropSecond
      if strJoin f = [] then some tl else some (m :: tl)
  | .token t :: rest => do
    let m ← MathElement.from (.token t)
    let f ← m.format 0 0 100
    let tl ← MathEnvironment.fromGoBody rest nodeIdx dropSecond
    if strJoin f = [] then some tl else some (m :: tl)
termination_by (sizeOf elems, 9)

/-- `MathEnvironment::from` (math.rs 386-445). -/
def MathEnvironment.from : SyntaxNode → Option MathEnvironment
  | .mk k cs => do
    let fc ← SyntaxNode.firstChild (.mk k cs)
    let fc2 ← fc.firstChild
    let fc3 ← fc2.firstChild
    let name := fc3.toStr
    let optArgsStr := strJoin
      (((fc.children.filter (fun c => c.kind = .BRACK_GROUP)).map SyntaxNode.toStr))
    let optArgs := MathElement.Text
      (strJoinSep ", ".data ((splitOnSeq ",".data optArgsStr).map trimBoth))
    let second ← ((SyntaxNode.children (.mk k cs)).drop 1).head?
    let (extraArgs, dropSecond) :=
      if second.kind = .CURLY_GROUP then
        ([MathElement.Text
          (strJoinSep ", ".data ((splitOnSeq ",".data second.toStr).map trimBoth))], true)
      else ([], false)
    let bodyChildren ← MathEnvironment.fromGoBody cs 0 dropSecond
    some (.mk name ([optArgs] ++ extraArgs) (.mk bodyChildren))
termination_by n => (sizeOf n, 7)

end


/-! ## Claim theorems -/

/-! ### String lemmas used by the claim proofs -/

theorem trimEnd_append_nonws (s : Str) (c : Char) (h : c.isWhitespace = false) :
    trimEnd (s ++ [c]) = s ++ [c] := by
  simp [trimEnd, List.dropWhile, h]

theorem dropWhile_dropWhile (p : Char → Bool) (l : Str) :
    List.dropWhile p (List.dropWhile p l) = List.dropWhile p l := by
  induction l with
  | nil => rfl
  | cons x xs ih =>
    by_cases hx : p x <;> simp [List.dropWhile, hx, ih]

theorem trimEnd_idem (s : Str) : trimEnd (trimEnd s) = trimEnd s := by
  simp [trimEnd, dropWhile_dropWhile]

theorem strEndsWith_singleton (s : Str) (c : Char) :
    strEndsWith s [c] = (s.getLast? == some c) := by
  cases hs : s.reverse with
  | nil =>
    have : s = [] := by simpa using congrArg List.reverse hs
    subst this; simp [strEndsWith, List.isSuffixOf]
  | cons x xs =>
    have hgl : s.getLast? = some x := by
      rw [← List.head?_reverse]; simp [hs]
    rw [strEndsWith, List.isSuffixOf, hs, hgl]
    show List.isPrefixOf [c] (x :: xs) = _
    simp [List.isPrefixOf, eq_comm]

theorem commentGuard_endsWith (line : Str) :
    strEndsWith (commentGuard line) "%".data = true := by
  rw [commentGuard]
  split
  · assumption
  · show strEndsWith (trimEnd line ++ ['%']) ['%'] = true
    rw [strEndsWith_singleton]
    simp

theorem trimEnd_commentGuard (line : Str) :
    trimEnd (commentGuard line) = commentGuard line := by
  rw [commentGuard]
  split
  · exact trimEnd_idem line
  · exact trimEnd_append_nonws (trimEnd line) '%' (by decide)

theorem trimBoth_indent_str (i t : Nat) : trimBoth (indent_str i t) = [] := by
  rw [indent_str, strRepeat]
  induction (i * t) with
  | zero => rfl
  | succ n ih =>
    rw [List.replicate_succ]
    simpa [trimBoth, trimStart, trimEnd, List.dropWhile] using ih

/-! ### C1: totality of formatting -/

/-- C1: the spec claims formatting is total (no abort) for every well-formed
tree and budget.  The code aborts: an `ENUM_ITEM` whose body is empty (for
example `\begin\x7bitemize\x7d\item\end\x7bitemize\x7d`, whose `\item` carries no
content) is classified into an `EnumItem` with an empty body, and
`TexEnumItem::format` then calls `output.first().unwrap()` on the empty
rendering of that body (tex.rs 891) — modelled here by `format` returning
`none` — even at the default budget `(0, 2, 80)`. -/
theorem enumItem_empty_body_aborts :
    TexElement.from (SyntaxNode.mk .ENUM_ITEM [.token ⟨.COMMAND_NAME, "\\item".data⟩])
      = some (.EnumItem (.mk (.mk []))) ∧
    TexEnumItem.format (.mk (.mk [])) 0 2 80 = none := by
  constructor
  · simp [TexElement.from, TexEnumItem.from, TexParent.from, TexParent.fromGoChildren]
  · simp [TexEnumItem.format, usizeSub, TexParent.format, TexParent.formatGo,
      indent_str, strRepeat, trimBoth, trimStart, trimEnd, strLen]

/-! ### C3: the curly-group fits-vs-expand decision -/

/-- C3: for every `CurlyGroup` and positive remaining width, if the summed
length of the body's rendered lines fits the width, `format` returns the
single line `{` ++ trimmed body ++ `}`; otherwise it returns `{` on its own
line, the body re-rendered one indent level deeper with the deeper indent
prefixed to each line, and `}` on its own line (tex.rs 545-566). -/
theorem texCurlyGroup_format_decision (g : TexCurlyGroup)
    (indent_level tabstop line_length : Nat) (hL : 0 < line_length) (ls ls' : List Str)
    (h1 : TexParent.format g.body indent_level tabstop line_length = some ls)
    (h2 : TexParent.format g.body (indent_level + 1) tabstop line_length = some ls') :
    TexCurlyGroup.format g indent_level tabstop line_length =
      (if (ls.map strLen).sum ≤ line_length then
        some ["\x7b".data ++ trimBoth (strJoin ls) ++ "\x7d".data]
      else
        some ((("\x7b".data : Str) ::
          ls'.map (fun ln => indent_str (indent_level + 1) tabstop ++ ln)) ++ ["\x7d".data])) := by
  match g with
  | .mk body =>
    simp only [TexCurlyGroup.body] at h1 h2
    have h0 : ¬ (line_length = 0) := by omega
    rw [TexCurlyGroup.format]
    simp only [if_neg h0, h1, h2, Option.bind_eq_bind, Option.some_bind]

/-- Witness for C3 at a concrete fitting group. -/
theorem texCurlyGroup_format_decision_witness :
    0 < 80 ∧
    TexCurlyGroup.format (.mk (.mk [.Text "ab".data])) 0 2 80 =
      (if (([["a".data.head!, 'b']] : List Str).map strLen).sum ≤ 80 then
        some ["\x7b".data ++ trimBoth (strJoin [['a', 'b']]) ++ "\x7d".data]
      else
        some ((("\x7b".data : Str) ::
          [[' ', ' ', 'a', 'b']].map (fun ln => indent_str 1 2 ++ ln)) ++ ["\x7d".data])) := by
  constructor
  · omega
  · exact texCurlyGroup_format_decision (.mk (.mk [.Text "ab".data])) 0 2 80 (by omega)
      [['a','b']] [[' ',' ','a','b']]
      (by simp [TexCurlyGroup.body, TexParent.format, TexParent.formatGo, TexParent.formatStep,
            TexParent.stepText, indent_str, strRepeat, strLen, trimBoth, trimStart, trimEnd,
            splitOnSeq, splitOnSeq.go, textWordLoop])
      (by simp [TexCurlyGroup.body, TexParent.format, TexParent.formatGo, TexParent.formatStep,
            TexParent.stepText, indent_str, strRepeat, strLen, trimBoth, trimStart, trimEnd,
            splitOnSeq, splitOnSeq.go, textWordLoop])


/-- The kinds with a dedicated arm in `TexElement::from` (tex.rs 45-104). -/
def recognizedKinds : List SyntaxKind :=
  [.ROOT, .PREAMBLE, .SECTION, .SUBSECTION, .SUBSUBSECTION, .PARAGRAPH, .CHAPTER,
   .PART, .GENERIC_COMMAND, .PACKAGE_INCLUDE, .CLASS_INCLUDE, .HREF, .IMPORT,
   .CAPTION, .LATEX_INCLUDE, .MATH_OPERATOR, .GRAPHICS_INCLUDE,
   .TIKZ_LIBRARY_IMPORT, .CITATION, .COLOR_DEFINITION, .COLOR_REFERENCE,
   .LABEL_DEFINITION, .LABEL_REFERENCE, .LABEL_REFERENCE_RANGE,
   .INKSCAPE_INCLUDE, .BIBTEX_INCLUDE, .BIBLATEX_INCLUDE,
   .NEW_COMMAND_DEFINITION, .GLOSSARY_ENTRY_REFERENCE,
   .GLOSSARY_ENTRY_DEFINITION, .ENVIRONMENT, .TEXT, .KEY, .ERROR, .CURLY_GROUP,
   .BRACK_GROUP, .BRACK_GROUP_KEY_VALUE, .CURLY_GROUP_WORD,
   .CURLY_GROUP_WORD_LIST, .KEY_VALUE_PAIR, .MIXED_GROUP, .ENUM_ITEM,
   .EQUATION, .FORMULA, .BEGIN, .END]

/-! ### C6 and C8: the classifier -/

/-- C6: the node classifier is total over syntax-node kinds: any node whose
kind is outside the recognized set (the kinds with a dedicated arm in
`TexElement::from`) is mapped to an empty `Text` node, so an unsupported
construct renders as a gap instead of aborting (tex.rs 105). -/
theorem classifier_unrecognized_kind_empty_text (n : SyntaxNode)
    (h : recognizedKinds.contains n.kind = false) :
    TexElement.from n = some (.Text []) := by
  match n with
  | .mk k cs =>
    simp only [SyntaxNode.kind] at h
    cases k <;> simp_all [recognizedKinds, TexElement.from]

/-- Witness for C6: a `COMMENT` node (no arm in the classifier match). -/
theorem classifier_unrecognized_kind_empty_text_witness :
    recognizedKinds.contains (SyntaxNode.mk .COMMENT []).kind = false ∧
    TexElement.from (SyntaxNode.mk .COMMENT []) = some (.Text []) :=
  ⟨by decide, classifier_unrecognized_kind_empty_text (.mk .COMMENT []) (by decide)⟩

theorem textBlankAlternation_eq_flatMap (ws : List Str) :
    textBlankAlternation ws = ws.flatMap (fun w => [.Text w, .BlankLine]) := by
  induction ws with
  | nil => rfl
  | cons w rest ih => simp [textBlankAlternation, ih]

/-- C8: a text-bearing leaf (`TEXT`/`KEY`/`ERROR`) whose text contains a
double line-break (equivalently, splitting on `"\n\n"` yields more than one
segment, which is the code's own test at tex.rs 79) is classified as a
`Parent` whose children alternate `Text w, BlankLine` with exactly one `Text`
child per segment (tex.rs 76-89). -/
theorem classifier_text_blankline_split (n : SyntaxNode)
    (hk : n.kind = .TEXT ∨ n.kind = .KEY ∨ n.kind = .ERROR)
    (hsplit : 1 < (splitOnSeq "\n\n".data n.toStr).length) :
    TexElement.from n = some (.Parent (.mk
      ((splitOnSeq "\n\n".data n.toStr).flatMap
        (fun w => [.Text w, .BlankLine])))) := by
  match n with
  | .mk k cs =>
    simp only [SyntaxNode.kind] at hk
    rcases hk with hk | hk | hk <;> subst hk <;>
      (rw [TexElement.from]
       simp [hsplit, textBlankAlternation_eq_flatMap])

/-- Witness for C8 on the two-paragraph text `"a\n\nb"`. -/
theorem classifier_text_blankline_split_witness :
    ((SyntaxNode.mk .TEXT [.token ⟨.WORD, "a\n\nb".data⟩]).kind = .TEXT ∨
      (SyntaxNode.mk .TEXT [.token ⟨.WORD, "a\n\nb".data⟩]).kind = .KEY ∨
      (SyntaxNode.mk .TEXT [.token ⟨.WORD, "a\n\nb".data⟩]).kind = .ERROR) ∧
    1 < (splitOnSeq "\n\n".data
      (SyntaxNode.mk .TEXT [.token ⟨.WORD, "a\n\nb".data⟩]).toStr).length ∧
    TexElement.from (SyntaxNode.mk .TEXT [.token ⟨.WORD, "a\n\nb".data⟩]) =
      some (.Parent (.mk
        ((splitOnSeq "\n\n".data
          (SyntaxNode.mk .TEXT [.token ⟨.WORD, "a\n\nb".data⟩]).toStr).flatMap
          (fun w => [.Text w, .BlankLine])))) := by
  refine ⟨Or.inl rfl, ?_, ?_⟩
  · simp [SyntaxNode.toStr, SyntaxElement.listToStr, SyntaxElement.toStr,
      splitOnSeq, splitOnSeq.go]
  · exact classifier_text_blankline_split _ (Or.inl rfl)
      (by simp [SyntaxNode.toStr, SyntaxElement.listToStr, SyntaxElement.toStr,
        splitOnSeq, splitOnSeq.go])

/-! ### C9: comment children of a prose parent -/

set_option maxHeartbeats 2000000 in
/-- C9 counterexample: the spec says a `Comment` child of a prose parent is
flushed onto its own line and preserved.  In `TexParent::format` a `Comment`
child matches no arm and falls into `_ => {}` (tex.rs 426), so its text is
dropped entirely: a parent holding `Text "a"` and `Comment "% c"` renders as
just `"a"`, with no `%` anywhere in the output. -/
theorem comment_child_dropped_cex :
    TexParent.format (.mk [.Text "a".data, .Comment "% c".data]) 0 2 80
      = some ["a".data] ∧
    ∀ ln ∈ [("a".data : Str)], containsChar ln '%' = false := by
  refine ⟨?_, by decide⟩
  simp [TexParent.format, TexParent.formatGo, TexParent.formatStep,
    TexParent.stepText, indent_str, strRepeat, strLen, trimBoth, trimStart,
    trimEnd, strEndsWith, splitOnSeq, splitOnSeq.go, textWordLoop]

/-- C9 amended: a `Comment` child is a no-op for the packer state — whenever
the top-of-iteration overlong check passes, the step returns the incoming
line and output unchanged (only the cached length is refreshed), so comments
are silently discarded rather than flushed. -/
theorem comment_child_state_unchanged (s : Str) (next : Option TexElement)
    (indent_level tabstop line_length : Nat) (st : PState)
    (hle : strLen st.line ≤ line_length) :
    TexParent.formatStep (.Comment s) next indent_level tabstop line_length st
      = some ⟨st.line, strLen st.line, st.output⟩ := by
  rw [TexParent.formatStep]
  simp [Nat.not_lt.mpr hle]

/-- Witness for the amended C9. -/
theorem comment_child_state_unchanged_witness :
    strLen ("ab".data : Str) ≤ 80 ∧
    TexParent.formatStep (.Comment "% x".data) none 0 2 80 ⟨"ab".data, 0, []⟩
      = some ⟨"ab".data, strLen ("ab".data : Str), []⟩ :=
  ⟨by decide, comment_child_state_unchanged "% x".data none 0 2 80 ⟨"ab".data, 0, []⟩ (by decide)⟩


/-! ### C4: the command-flush comment guard -/

theorem formatStep_command_of_le (cmd : TexCommand) (next : Option TexElement)
    (indent_level tabstop line_length : Nat) (st : PState)
    (hle : strLen st.line ≤ line_length) :
    TexParent.formatStep (.Command cmd) next indent_level tabstop line_length st =
      TexParent.stepCommand cmd next indent_level tabstop line_length
        (indent_str indent_level tabstop) st.line (strLen st.line) st.output := by
  rw [TexParent.formatStep]
  simp [Nat.not_lt.mpr hle]

/-- C4: when the prose packer flushes a non-empty current line because the
next `Command` child's flat width no longer fits (tex.rs 168-177), the
flushed line is pushed through the comment guard: it is the trimmed line,
it ends with `%`, and a second `%` is appended only when the trimmed line
did not already end with one. -/
theorem commandFlush_comment_guard (cmd : TexCommand) (next : Option TexElement)
    (indent_level tabstop line_length : Nat) (st st' : PState) (fl : List Str)
    (hle : strLen st.line ≤ line_length)
    (hflat : TexCommand.format cmd 0 0 0 = some fl)
    (hfit : line_length ≤ strLen st.line + strLen (strJoin fl))
    (hne : trimBoth st.line ≠ [])
    (hstep : TexParent.formatStep (.Command cmd) next indent_level tabstop
      line_length st = some st') :
    ∃ tail, st'.output = st.output ++ [commentGuard st.line] ++ tail ∧
      strEndsWith (commentGuard st.line) "%".data = true ∧
      (strEndsWith (trimEnd st.line) "%".data = true →
        commentGuard st.line = trimEnd st.line) ∧
      (strEndsWith (trimEnd st.line) "%".data = false →
        commentGuard st.line = trimEnd st.line ++ "%".data) := by
  have hprops : strEndsWith (commentGuard st.line) "%".data = true ∧
      (strEndsWith (trimEnd st.line) "%".data = true →
        commentGuard st.line = trimEnd st.line) ∧
      (strEndsWith (trimEnd st.line) "%".data = false →
        commentGuard st.line = trimEnd st.line ++ "%".data) := by
    refine ⟨commentGuard_endsWith st.line, ?_, ?_⟩
    · intro h; rw [commentGuard]; simp only [h, if_true]
    · intro h; rw [commentGuard]; simp only [h, Bool.false_eq_true, if_false]
  rw [formatStep_command_of_le cmd next indent_level tabstop line_length st hle] at hstep
  rw [TexParent.stepCommand, hflat] at hstep
  simp only [Option.some_bind, Option.bind_eq_bind] at hstep
  have hcond : line_length ≤ strLen st.line + strLen (strJoin fl) ∧
      trimBoth st.line ≠ [] := ⟨hfit, hne⟩
  rw [if_pos hcond] at hstep
  simp only [trimEnd_commentGuard] at hstep
  by_cases hsp : specialCommandNames.contains cmd.name = true
  · rw [if_pos hsp] at hstep
    rw [trimBoth_indent_str] at hstep
    simp only [ne_eq, not_true_eq_false, if_false, ite_self, not_not,
      reduceIte] at hstep
    cases hfm : TexCommand.format cmd indent_level tabstop line_length with
    | none => rw [hfm] at hstep; simp at hstep
    | some fmt =>
      rw [hfm] at hstep
      simp only [Option.some_bind] at hstep
      cases hstep
      exact ⟨fmt.map trimEnd, by simp, hprops⟩
  · rw [if_neg hsp] at hstep
    by_cases hbs : cmd.name = "\\\\".data
    · rw [if_pos hbs] at hstep
      cases hstep
      exact ⟨[trimBoth (indent_str indent_level tabstop ++ "\\\\".data)], by simp, hprops⟩
    · rw [if_neg hbs] at hstep
      cases hrem : usizeSub line_length (strLen (indent_str indent_level tabstop)) with
      | none => rw [hrem] at hstep; simp at hstep
      | some rem =>
        rw [hrem] at hstep
        simp only [Option.some_bind] at hstep
        cases hfm : TexCommand.format cmd indent_level tabstop rem with
        | none => rw [hfm] at hstep; simp at hstep
        | some fmt =>
          rw [hfm] at hstep
          simp only [Option.some_bind] at hstep
          split at hstep
          · cases hstep
            exact ⟨[], by simp, hprops⟩
          · split at hstep
            · cases hstep
              exact ⟨[], by simp, hprops⟩
            · split at hstep
              · simp at hstep
              · cases hstep
                rename_i f0 restf _ _
                exact ⟨[indent_str indent_level tabstop ++ trimBoth f0] ++
                  List.map (fun s => indent_str indent_level tabstop ++ s) restf,
                  by simp, hprops⟩

set_option maxHeartbeats 2000000 in
/-- Witness for C4: flushing the line `abcd` ahead of `\foo` at width 8. -/
theorem commandFlush_comment_guard_witness :
    ∃ tail, (⟨"\\foo".data, 4, ["abcd%".data]⟩ : PState).output
        = (⟨"abcd".data, 0, []⟩ : PState).output ++ [commentGuard "abcd".data] ++ tail ∧
      strEndsWith (commentGuard "abcd".data) "%".data = true ∧
      (strEndsWith (trimEnd "abcd".data) "%".data = true →
        commentGuard "abcd".data = trimEnd "abcd".data) ∧
      (strEndsWith (trimEnd "abcd".data) "%".data = false →
        commentGuard "abcd".data = trimEnd "abcd".data ++ "%".data) :=
  commandFlush_comment_guard (.mk "\\foo".data []) none 0 2 8
    ⟨"abcd".data, 0, []⟩ ⟨"\\foo".data, 4, ["abcd%".data]⟩ ["\\foo".data]
    (by decide)
    (by simp [TexCommand.format, TexCommand.formatGoArgs])
    (by decide)
    (by decide)
    (by
      simp [TexParent.formatStep, TexParent.stepCommand, TexCommand.format,
        TexCommand.formatGoArgs, TexCommand.name, TexCommand.args, commentGuard,
        usizeSub, indent_str, strRepeat, strLen, strJoin, trimBoth, trimStart,
        trimEnd, strEndsWith, specialCommandNames, headIsTightTex]
      decide)

/-- Claim-side (C7/C10): the flat renderings of a list of children, each
collapsed with `join("")`, rendered at the width-0 sentinel. -/
def flatRenderList : List TexElement → Nat → Nat → Option (List Str)
  | [], _, _ => some []
  | c :: rest, i, t => do
    let f ← TexElement.format c i t 0
    let tl ← flatRenderList rest i t
    some (strJoin f :: tl)

/-- Claim-side (C7): `[` ++ flat renderings joined with `", "` ++ `]`. -/
def brackGroupFlatJoin (g : TexBrackGroup) (i t : Nat) : Option Str := do
  let flats ← flatRenderList g.children i t
  some ("[".data ++ strJoinSep ", ".data flats ++ "]".data)

/-- Claim-side (C10): open delimiter, the children's flat renderings
comma-normalised and concatenated, close delimiter. -/
def mixedGroupFlatConcat (g : TexMixedGroup) (i t : Nat) : Option Str := do
  let flats ← flatRenderList g.children i t
  some (g.open_delim ++
    strJoin (flats.map (fun s => trimBoth (strJoinSep ", ".data (splitOnSeq ",".data s)))) ++
    g.close_delim)

/-! ### C7 and C10: bracket and mixed groups -/

set_option maxHeartbeats 4000000 in
/-- C7 counterexample: the spec says a `BrackGroup` joins its children's
flat renderings with `", "`.  The code instead renders each child at the
AMBIENT width and joins the resulting lines (tex.rs 589-595): once a child
wraps, its indentation and line breaks leak into the joined string, so the
output differs from the flat `", "`-join the spec describes. -/
theorem brackGroup_flat_join_cex :
    TexBrackGroup.format (.mk [.CurlyGroup (.mk (.mk [.Text "aaaa bbbb".data]))]) 0 2 3
      = some ["[{,   ,     aaaa,     ,   bbbb , }]".data] ∧
    brackGroupFlatJoin (.mk [.CurlyGroup (.mk (.mk [.Text "aaaa bbbb".data]))]) 0 2
      = some ("[{aaaa bbbb}]".data) ∧
    (["[{,   ,     aaaa,     ,   bbbb , }]".data] : List Str)
      ≠ ["[{aaaa bbbb}]".data] := by
  refine ⟨?_, ?_, by decide⟩
  · simp [TexBrackGroup.format, TexElement.formatList, TexElement.format,
      TexCurlyGroup.format, TexParent.format, TexParent.formatGo,
      TexParent.formatStep, TexParent.stepText, indent_str, strRepeat, strLen,
      strJoin, strJoinSep, trimBoth, trimStart, trimEnd, splitOnSeq,
      splitOnSeq.go, textWordLoop, usizeSub]
    decide
  · simp [brackGroupFlatJoin, flatRenderList, TexElement.format,
      TexCurlyGroup.format, TexParent.format, TexParent.formatGo,
      TexParent.formatStep, TexParent.stepText, indent_str, strRepeat, strLen,
      strJoin, strJoinSep, trimBoth, trimStart, trimEnd, splitOnSeq,
      splitOnSeq.go, textWordLoop, usizeSub, TexBrackGroup.children]
    decide

/-- C7 amended: the `", "` join is over the lines the children actually
render to at the ambient budget, not over their flat renderings: a
`BrackGroup` yields `[` ++ join ++ `]` on one line, a `CurlyGroupWordList`
yields `{` ++ trimmed join ++ `}`, and a key–value pair with a value
renders as `key=value`. -/
theorem optionGroups_join_amended :
    (∀ (g : TexBrackGroup) (i t L : Nat) (ls : List Str),
      TexElement.formatList g.children i t L = some ls →
      TexBrackGroup.format g i t L
        = some ["[".data ++ strJoinSep ", ".data ls ++ "]".data]) ∧
    (∀ (g : TexCurlyGroupWordList) (i t L : Nat) (ls : List Str),
      TexElement.formatList g.children i t L = some ls →
      TexCurlyGroupWordList.format g i t L
        = some ["\x7b".data ++ trimBoth (strJoinSep ", ".data ls) ++ "\x7d".data]) ∧
    (∀ (kv : TexKeyVal) (i t L : Nat) (v : Str), kv.value = some v →
      TexKeyVal.format kv i t L = some [kv.key ++ "=".data ++ v]) := by
  refine ⟨?_, ?_, ?_⟩
  · intro g i t L ls h
    match g with
    | .mk children =>
      simp only [TexBrackGroup.children] at h
      rw [TexBrackGroup.format, h]
      rfl
  · intro g i t L ls h
    match g with
    | .mk children =>
      simp only [TexCurlyGroupWordList.children] at h
      rw [TexCurlyGroupWordList.format, h]
      rfl
  · intro kv i t L v h
    rw [TexKeyVal.format, h]

/-- Witness for the amended C7 on `[a4paper, 12pt]`, `{inputenc}` and
`aspectratio=169`. -/
theorem optionGroups_join_amended_witness :
    (TexBrackGroup.format (.mk [.KeyValPair ⟨"a4paper".data, none⟩,
        .KeyValPair ⟨"12pt".data, none⟩]) 0 2 80
      = some ["[".data ++ strJoinSep ", ".data ["a4paper".data, "12pt".data] ++ "]".data]) ∧
    (TexCurlyGroupWordList.format (.mk [.Text "inputenc".data]) 0 2 80
      = some ["\x7b".data ++ trimBoth (strJoinSep ", ".data ["inputenc".data]) ++ "\x7d".data]) ∧
    (TexKeyVal.format ⟨"aspectratio".data, some "169".data⟩ 0 2 80
      = some ["aspectratio".data ++ "=".data ++ "169".data]) := by
  refine ⟨?_, ?_, ?_⟩
  · exact optionGroups_join_amended.1 _ 0 2 80 _
      (by simp [TexElement.formatList, TexElement.format, TexKeyVal.format,
        TexBrackGroup.children])
  · exact optionGroups_join_amended.2.1 _ 0 2 80 _
      (by simp [TexElement.formatList, TexElement.format, trimBoth, trimStart,
        trimEnd, TexCurlyGroupWordList.children])
  · exact optionGroups_join_amended.2.2 _ 0 2 80 _ rfl

set_option maxHeartbeats 4000000 in
/-- C10 counterexample: the spec says a `MixedGroup` concatenates its
children's flat renderings between its delimiters.  The code renders each
child at the ambient width and concatenates all resulting LINES (tex.rs
628-644), so a wrapped child smuggles its indentation into the single output
line, which then differs from the flat concatenation. -/
theorem mixedGroup_flat_concat_cex :
    TexMixedGroup.format (.mk [.CurlyGroup (.mk (.mk [.Text "aaaa bbbb".data]))]
        "(".data ")".data) 0 2 3
      = some ["({      aaaa      bbbb })".data] ∧
    mixedGroupFlatConcat (.mk [.CurlyGroup (.mk (.mk [.Text "aaaa bbbb".data]))]
        "(".data ")".data) 0 2
      = some ("({aaaa bbbb})".data) ∧
    (["({      aaaa      bbbb })".data] : List Str) ≠ ["({aaaa bbbb})".data] := by
  refine ⟨?_, ?_, by decide⟩
  · simp [TexMixedGroup.format, TexMixedGroup.formatGoChildren, TexElement.format,
      TexCurlyGroup.format, TexParent.format, TexParent.formatGo,
      TexParent.formatStep, TexParent.stepText, indent_str, strRepeat, strLen,
      strJoin, strJoinSep, trimBoth, trimStart, trimEnd, splitOnSeq,
      splitOnSeq.go, textWordLoop, usizeSub]
    decide
  · simp [mixedGroupFlatConcat, flatRenderList, TexElement.format,
      TexCurlyGroup.format, TexParent.format, TexParent.formatGo,
      TexParent.formatStep, TexParent.stepText, indent_str, strRepeat, strLen,
      strJoin, strJoinSep, trimBoth, trimStart, trimEnd, splitOnSeq,
      splitOnSeq.go, textWordLoop, usizeSub, TexMixedGroup.children,
      TexMixedGroup.open_delim, TexMixedGroup.close_delim]
    decide

/-- The per-child pieces accumulated by `TexMixedGroup::format` (tex.rs 628-639). -/
def mixedGroupPieces : List TexElement → Nat → Nat → Nat → Option (List Str)
  | [], _, _, _ => some []
  | c :: rest, i, t, L => do
    let f ← TexElement.format c i t L
    let tl ← mixedGroupPieces rest i t L
    some (trimBoth (strJoinSep ", ".data (splitOnSeq ",".data (strJoin f))) :: tl)

/-- The per-child pieces accumulated by `MathMixedGroup::format` (math.rs 318-325). -/
def mathMixedGroupPieces : List MathElement → Nat → Nat → Nat → Option (List Str)
  | [], _, _, _ => some []
  | c :: rest, i, t, L => do
    let f ← MathElement.format c i t L
    let tl ← mathMixedGroupPieces rest i t L
    some (trimBoth (strJoin f) :: tl)

theorem texMixedGroup_goChildren_eq (children : List TexElement) (i t L : Nat)
    (acc : Str) :
    TexMixedGroup.formatGoChildren children i t L acc
      = (mixedGroupPieces children i t L).map (fun ps => acc ++ strJoin ps) := by
  induction children generalizing acc with
  | nil => simp [TexMixedGroup.formatGoChildren, mixedGroupPieces, strJoin]
  | cons c rest ih =>
    rw [TexMixedGroup.formatGoChildren, mixedGroupPieces]
    cases TexElement.format c i t L with
    | none => simp
    | some f =>
      simp only [Option.some_bind, ih]
      cases mixedGroupPieces rest i t L with
      | none => simp
      | some ps => simp [strJoin]

theorem mathMixedGroup_goChildren_eq (children : List MathElement) (i t L : Nat)
    (acc : Str) :
    MathMixedGroup.formatGoChildren children i t L acc
      = (mathMixedGroupPieces children i t L).map (fun ps => acc ++ strJoin ps) := by
  induction children generalizing acc with
  | nil => simp [MathMixedGroup.formatGoChildren, mathMixedGroupPieces, strJoin]
  | cons c rest ih =>
    rw [MathMixedGroup.formatGoChildren, mathMixedGroupPieces]
    cases MathElement.format c i t L with
    | none => simp
    | some f =>
      simp only [Option.some_bind, ih]
      cases mathMixedGroupPieces rest i t L with
      | none => simp
      | some ps => simp [strJoin]

/-- C10 amended: both mixed-group formatters (TeX and math) return a single
line: the opening delimiter, the concatenation of the per-child pieces each
collector accumulates (comma-normalised and trimmed per child), and the
closing delimiter. -/
theorem mixedGroup_single_line_amended :
    (∀ (g : TexMixedGroup) (i t L : Nat) (ps : List Str),
      mixedGroupPieces g.children i t L = some ps →
      TexMixedGroup.format g i t L
        = some [g.open_delim ++ strJoin ps ++ g.close_delim]) ∧
    (∀ (g : MathMixedGroup) (i t L : Nat) (ps : List Str),
      mathMixedGroupPieces g.children i t L = some ps →
      MathMixedGroup.format g i t L
        = some [g.open_delim ++ strJoin ps ++ g.close_delim]) := by
  constructor
  · intro g i t L ps h
    match g with
    | .mk children od cd =>
      simp only [TexMixedGroup.children] at h
      rw [TexMixedGroup.format, texMixedGroup_goChildren_eq, h]
      simp [TexMixedGroup.open_delim, TexMixedGroup.close_delim]
  · intro g i t L ps h
    match g with
    | .mk children od cd =>
      simp only [MathMixedGroup.children] at h
      rw [MathMixedGroup.format, mathMixedGroup_goChildren_eq, h]
      simp [MathMixedGroup.open_delim, MathMixedGroup.close_delim]

/-- Witness for the amended C10 on `(0.5)` and math `(t)`. -/
theorem mixedGroup_single_line_amended_witness :
    (TexMixedGroup.format (.mk [.Text "0.5".data] "(".data ")".data) 0 2 80
      = some ["(".data ++ strJoin ["0.5".data] ++ ")".data]) ∧
    (MathMixedGroup.format (.mk [.Text "t".data] "(".data ")".data) 0 2 80
      = some ["(".data ++ strJoin ["t".data] ++ ")".data]) := by
  constructor
  · exact mixedGroup_single_line_amended.1 _ 0 2 80 _
      (by simp [mixedGroupPieces, TexElement.format, TexMixedGroup.children,
        trimBoth, trimStart, trimEnd, strJoin, strJoinSep, splitOnSeq,
        splitOnSeq.go]; decide)
  · exact mixedGroup_single_line_amended.2 _ 0 2 80 _
      (by simp [mathMixedGroupPieces, MathElement.format, MathMixedGroup.children,
        trimBoth, trimStart, trimEnd, strJoin])

/-! ### C5: aligning at ampersands -/

/-- Claim-side (C5): the alignment pass as the claim words it — lines without
`&` pass through unchanged; otherwise each line is split on `&` into trimmed
columns, the maximum text width per column index is taken across all lines,
each column is right-padded to that width, and the padded columns are
rejoined with `" & "` behind the ambient indent; blank lines are dropped. -/
def specAlignPass (indent : Str) (lines : List Str) : List Str :=
  if lines.all (fun ln => containsChar ln '&' = false) then lines
  else
    let rows := lines.map (fun ln => (splitOnSeq "&".data ln).map trimBoth)
    let width : Nat → Nat := fun j =>
      (rows.map (fun r => strLen (r.getD j []))).foldl max 0
    (rows.map (fun r =>
      indent ++ strJoinSep " & ".data
        (r.mapIdx (fun j col => col ++ strRepeat ' ' (width j - strLen col))))).filter
      (fun ln => trimBoth ln ≠ [])

theorem specAlignPass_eq (indent : Str) (lines : List Str) :
    specAlignPass indent lines =
      if lines.all (fun ln => containsChar ln '&' = false) then lines
      else
        ((lines.map (fun ln => (splitOnSeq "&".data ln).map trimBoth)).map (fun r =>
          indent ++ strJoinSep " & ".data
            (r.mapIdx (fun j col => col ++ strRepeat ' '
              (((lines.map (fun ln => (splitOnSeq "&".data ln).map trimBoth)).map
                (fun r2 => strLen (r2.getD j []))).foldl max 0 - strLen col))))).filter
          (fun ln => trimBoth ln ≠ []) := by
  rw [specAlignPass]

-- helper lemmas
theorem le_max?_getD (l : List Nat) (x : Nat) (hx : x ∈ l) :
    x ≤ l.max?.getD 0 := by
  induction l with
  | nil => cases hx
  | cons a l ih =>
    rcases List.mem_cons.mp hx with h | h
    · subst h
      cases hl : l.max? with
      | none => simp [List.max?_cons, hl]
      | some m => simp [List.max?_cons, hl]
    · have := ih h
      cases hl : l.max? with
      | none => simp [hl] at this; omega
      | some m => simp [hl] at this; simp [List.max?_cons, hl]; omega

theorem upd_getD (mw : List Nat) (cols : List Str) (j : Nat) (hj : j < mw.length) :
    (mw.mapIdx (fun j m =>
      if j < cols.length ∧ m < strLen (cols.getD j []) then strLen (cols.getD j [])
      else m)).getD j 0
      = max (mw.getD j 0) (strLen (cols.getD j [])) := by
  rw [List.getD_eq_getElem?_getD, List.getElem?_eq_getElem (by simpa using hj),
    List.getElem_mapIdx]
  conv_rhs => rw [List.getD_eq_getElem?_getD, List.getElem?_eq_getElem hj]
  by_cases hc : j < cols.length
  · simp only [hc, true_and, Option.getD_some]
    split <;> omega
  · have hz : cols[j]? = none := List.getElem?_eq_none (by omega)
    simp [hc, hz, strLen]

theorem foldl_upd_getD (rows : List (List Str)) (mw : List Nat) (j : Nat)
    (hj : j < mw.length) :
    (rows.foldl (fun mw cols => mw.mapIdx (fun j m =>
      if j < cols.length ∧ m < strLen (cols.getD j []) then strLen (cols.getD j [])
      else m)) mw).getD j 0
      = rows.foldl (fun m cols => max m (strLen (cols.getD j []))) (mw.getD j 0) := by
  induction rows generalizing mw with
  | nil => rfl
  | cons cols rest ih =>
    rw [List.foldl_cons, List.foldl_cons, ih _ (by simpa using hj), upd_getD _ _ _ hj]

theorem c5_widths_agree (rows : List (List Str)) (j : Nat) (n : Nat) (hj : j < n) :
    (rows.foldl (fun mw cols => mw.mapIdx (fun j m =>
      if j < cols.length ∧ m < strLen (cols.getD j []) then strLen (cols.getD j [])
      else m)) (List.replicate n 0)).getD j 0
      = (rows.map (fun r => strLen (r.getD j []))).foldl max 0 := by
  rw [foldl_upd_getD _ _ _ (by simpa using hj), List.foldl_map]
  congr 1
  rw [List.getD_eq_getElem?_getD, List.getElem?_eq_getElem (by simpa using hj)]
  simp

-- mapIdx congruence
theorem mapIdx_congr_lt {α β : Type} (l : List α) (f g : Nat → α → β)
    (h : ∀ j, j < l.length → ∀ a, f j a = g j a) :
    l.mapIdx f = l.mapIdx g := by
  apply List.ext_getElem
  · simp
  · intro j h1 h2
    simp only [List.getElem_mapIdx]
    exact h j (by simpa using h1) _

/-- C5: `MathEnvironment::align_at_amp` (math.rs 470-513) refines the
spec's alignment pass: if every body line is `&`-free the lines pass
through unchanged; otherwise each line is split at `&`, each column is
padded to its maximum trimmed width, the cells are re-joined with
`" & "`, the indent prefix is restored, and all-blank lines are dropped. -/
theorem mathEnv_alignAtAmp_spec (e : MathEnvironment)
    (indent_level tabstop line_length : Nat) (lines : List Str)
    (h : MathParent.format e.body indent_level tabstop line_length = some lines) :
    MathEnvironment.alignAtAmp e indent_level tabstop line_length
      = some (specAlignPass (indent_str indent_level tabstop) lines) := by
  match e with
  | .mk name args body =>
    simp only [MathEnvironment.body] at h
    rw [MathEnvironment.alignAtAmp, h]
    simp only [Option.bind_eq_bind, Option.some_bind]
    rw [specAlignPass_eq]
    by_cases hc : ∀ ln ∈ lines, containsChar ln '&' = false
    · rw [if_pos, if_pos]
      · exact (List.all_eq_true).mpr fun ln hm => by simp [hc ln hm]
      · rw [List.length_eq_zero, List.filter_eq_nil]
        intro ln hm
        simp [hc ln hm]
    · rw [if_neg, if_neg]
      · refine congrArg some (congrArg _ ?_)
        apply List.map_congr_left
        intro cols hmem
        refine congrArg _ (congrArg _ ?_)
        apply mapIdx_congr_lt
        intro j hj col
        have hlen : cols.length ∈
            (List.map (fun ln => List.map trimBoth (splitOnSeq ['&'] ln)) lines).map
              List.length := List.mem_map_of_mem _ hmem
        have hle := le_max?_getD _ _ hlen
        rw [c5_widths_agree _ j _ (lt_of_lt_of_le hj hle)]
      · intro hall
        apply hc
        intro ln hm
        have := (List.all_eq_true).mp hall ln hm
        simpa using this
      · intro hlen
        apply hc
        intro ln hm
        have := (List.length_eq_zero).mp hlen
        have := (List.filter_eq_nil).mp this ln hm
        simpa using this

/-- Witness for C5 on an `align*` body `x&=1`. -/
theorem mathEnv_alignAtAmp_spec_witness :
    MathEnvironment.alignAtAmp (.mk "align*".data [] (.mk [.Text "x&=1".data])) 1 2 80
      = some (specAlignPass (indent_str 1 2) ["  x&=1".data]) :=
  mathEnv_alignAtAmp_spec (.mk "align*".data [] (.mk [.Text "x&=1".data])) 1 2 80
    ["  x&=1".data]
    (by simp [MathEnvironment.body, MathParent.format, MathParent.formatGo,
      MathParent.formatStep, indent_str, strRepeat, trimBoth, trimStart, trimEnd,
      strLen, strEndsWith])


/-! ### C2: width respect for Text-only content -/

/-- Claim-side (C2): the length of a line not counting one trailing
separator space. -/
def lenExclTrailingSep (ln : Str) : Nat :=
  if ln.getLast? = some ' ' then strLen ln - 1 else strLen ln

/-- Claim-side (C2): the width bound the claim asserts — a line fits the
width (excluding one trailing separator) or is a single unsplittable token
that alone exceeds the width. -/
def claimWidthOk (L : Nat) (ln : Str) : Prop :=
  lenExclTrailingSep ln ≤ L ∨
    (containsChar (trimBoth ln) ' ' = false ∧ L < strLen (trimBoth ln))

/-- Claim-side (C2, amended): a line fits the width (excluding one trailing
separator) or carries at most one word (its trimmed content has no space). -/
def amendedWidthOk (L : Nat) (ln : Str) : Prop :=
  lenExclTrailingSep ln ≤ L ∨ containsChar (trimBoth ln) ' ' = false

/-- A line consisting of a space prefix, a whitespace-free word, and at most
one trailing space. -/
def wordShape (line : Str) : Prop :=
  ∃ n w sp, (sp = [] ∨ sp = [' ']) ∧ (∀ c ∈ w, c.isWhitespace = false) ∧
    line = List.replicate n ' ' ++ w ++ sp

/-- Invariant on the packer's current line. -/
def lineInvC2 (L : Nat) (line : Str) : Prop :=
  strLen line ≤ L ∨ (strLen line ≤ L + 1 ∧ line.getLast? = some ' ') ∨ wordShape line

/-- Invariant on the packer state: the current line obeys `lineInvC2`, all
flushed lines obey the amended bound, and the cached length splits the line
into two pieces that each obey it. -/
def PInvC2 (L : Nat) (st : PState) : Prop :=
  lineInvC2 L st.line ∧ (∀ ln ∈ st.output, amendedWidthOk L ln) ∧
  st.l ≤ strLen st.line ∧ amendedWidthOk L (st.line.take st.l) ∧
  amendedWidthOk L (st.line.drop st.l)

def stOfTriple (p : Str × Nat × List Str) : PState := ⟨p.1, p.2.1, p.2.2⟩

theorem PInvC2_def (L : Nat) (st : PState) :
    PInvC2 L st ↔
      (lineInvC2 L st.line ∧ (∀ ln ∈ st.output, amendedWidthOk L ln) ∧
       st.l ≤ strLen st.line ∧ amendedWidthOk L (st.line.take st.l) ∧
       amendedWidthOk L (st.line.drop st.l)) := Iff.rfl

theorem PInvC2_mk (L : Nat) (line : Str) (l : Nat) (output : List Str) :
    PInvC2 L ⟨line, l, output⟩ ↔
      (lineInvC2 L line ∧ (∀ ln ∈ output, amendedWidthOk L ln) ∧
       l ≤ strLen line ∧ amendedWidthOk L (line.take l) ∧
       amendedWidthOk L (line.drop l)) := Iff.rfl

-- basic facts

theorem lenExcl_le_strLen (ln : Str) : lenExclTrailingSep ln ≤ strLen ln := by
  rw [lenExclTrailingSep]; split <;> omega

theorem amended_of_le {L : Nat} {ln : Str} (h : strLen ln ≤ L) : amendedWidthOk L ln :=
  Or.inl (le_trans (lenExcl_le_strLen ln) h)

theorem amended_nil (L : Nat) : amendedWidthOk L [] := amended_of_le (Nat.zero_le L)

theorem lenExcl_concat_space (s : Str) : lenExclTrailingSep (s ++ [' ']) = strLen s := by
  rw [lenExclTrailingSep, if_pos (List.getLast?_concat s)]
  simp [strLen]

theorem length_trimEnd_le (s : Str) : strLen (trimEnd s) ≤ strLen s := by
  rw [trimEnd, strLen, strLen, List.length_reverse]
  calc (s.reverse.dropWhile Char.isWhitespace).length
      ≤ s.reverse.length := (List.dropWhile_sublist _).length_le
    _ = s.length := List.length_reverse s

theorem trimEnd_all_ws {s : Str} (h : ∀ c ∈ s, c.isWhitespace = true) : trimEnd s = [] := by
  rw [trimEnd]
  have h2 : s.reverse.dropWhile Char.isWhitespace = [] :=
    List.dropWhile_eq_nil_iff.mpr (fun x hx => h x (List.mem_reverse.mp hx))
  rw [h2]; rfl

theorem trimEnd_of_all_nonws {s : Str} (h : ∀ c ∈ s, c.isWhitespace = false) :
    trimEnd s = s := by
  rw [trimEnd]
  cases hs : s.reverse with
  | nil =>
    have h2 : s = [] := by simpa using congrArg List.reverse hs
    simp [h2]
  | cons x xs =>
    have hx : x ∈ s := List.mem_reverse.mp (by rw [hs]; exact List.mem_cons_self x xs)
    rw [List.dropWhile_cons, h x hx]
    simp [← hs]

theorem trimStart_of_all_nonws {s : Str} (h : ∀ c ∈ s, c.isWhitespace = false) :
    trimStart s = s := by
  rw [trimStart]
  cases s with
  | nil => rfl
  | cons x xs =>
    rw [List.dropWhile_cons, h x (List.mem_cons_self x xs)]
    simp

theorem trimEnd_append_ws {s t : Str} (h : ∀ c ∈ t, c.isWhitespace = true) :
    trimEnd (s ++ t) = trimEnd s := by
  rw [trimEnd, trimEnd, List.reverse_append]
  congr 1
  rw [List.dropWhile_append]
  have h2 : t.reverse.dropWhile Char.isWhitespace = [] :=
    List.dropWhile_eq_nil_iff.mpr (fun x hx => h x (List.mem_reverse.mp hx))
  simp [h2]

theorem trimEnd_of_getLast_nonws {s : Str} {c : Char} (h : s.getLast? = some c)
    (hc : c.isWhitespace = false) : trimEnd s = s := by
  rw [trimEnd]
  cases hs : s.reverse with
  | nil =>
    have h2 : s = [] := by simpa using congrArg List.reverse hs
    subst h2; simp at h
  | cons x xs =>
    have hx : x = c := by
      rw [← List.head?_reverse, hs] at h
      simpa using h
    subst hx
    rw [List.dropWhile_cons, hc]
    simp [← hs]

theorem trimStart_replicate_append (n : Nat) (w : Str) :
    trimStart (List.replicate n ' ' ++ w) = trimStart w := by
  induction n with
  | zero => simp
  | succ m ih =>
    have hsp : (' ').isWhitespace = true := by decide
    rw [List.replicate_succ, List.cons_append, trimStart, List.dropWhile_cons, hsp]
    simpa [trimStart] using ih

theorem contains_eq_false_of_nonws {w : Str} (hw : ∀ c ∈ w, c.isWhitespace = false) :
    containsChar w ' ' = false := by
  rw [containsChar]
  cases hc : w.contains ' ' with
  | false => rfl
  | true =>
    have hmem : ' ' ∈ w := by simpa [List.contains] using hc
    exact absurd (hw ' ' hmem) (by decide)

theorem length_trimEnd_le_lenExcl (s : Str) :
    strLen (trimEnd s) ≤ lenExclTrailingSep s := by
  rw [lenExclTrailingSep]
  split
  · rename_i h
    have hne : s ≠ [] := by intro he; subst he; simp at h
    have hlast : s.getLast hne = ' ' := by
      rw [List.getLast?_eq_getLast s hne] at h
      simpa using h
    have hdec : s.dropLast ++ [' '] = s := by
      rw [← hlast]; exact List.dropLast_append_getLast hne
    calc strLen (trimEnd s) = strLen (trimEnd (s.dropLast ++ [' '])) := by rw [hdec]
      _ = strLen (trimEnd s.dropLast) := by
            rw [trimEnd_append_ws (fun c hc => by simp at hc; subst hc; decide)]
      _ ≤ strLen s.dropLast := length_trimEnd_le _
      _ = strLen s - 1 := by simp [strLen]
  · exact length_trimEnd_le s

theorem trimBoth_wordShape_contains {line : Str} (h : wordShape line) :
    containsChar (trimBoth line) ' ' = false := by
  obtain ⟨n, w, sp, hsp, hw, rfl⟩ := h
  have hspws : ∀ c ∈ sp, c.isWhitespace = true := by
    intro c hc
    rcases hsp with rfl | rfl
    · simp at hc
    · simp at hc; subst hc; decide
  by_cases hwnil : w = []
  · subst hwnil
    have hall : ∀ c ∈ (List.replicate n ' ' ++ [] ++ sp : Str), c.isWhitespace = true := by
      intro c hc
      simp at hc
      rcases hc with hc | hc
      · rw [hc.2]; decide
      · exact hspws c hc
    rw [trimBoth, trimEnd_all_ws hall]
    rfl
  · have hlast : (List.replicate n ' ' ++ w).getLast? = some (w.getLast hwnil) := by
      rw [List.getLast?_append_of_ne_nil _ hwnil]
      exact List.getLast?_eq_getLast w hwnil
    have hnw : (w.getLast hwnil).isWhitespace = false := hw _ (List.getLast_mem hwnil)
    rw [trimBoth, trimEnd_append_ws hspws,
      trimEnd_of_getLast_nonws hlast hnw, trimStart_replicate_append,
      trimStart_of_all_nonws hw]
    exact contains_eq_false_of_nonws hw

theorem amended_of_lineInv {L : Nat} {line : Str} (h : lineInvC2 L line) :
    amendedWidthOk L line := by
  rcases h with h | ⟨hlen, hlast⟩ | h
  · exact amended_of_le h
  · left; rw [lenExclTrailingSep, if_pos hlast]; omega
  · exact Or.inr (trimBoth_wordShape_contains h)

theorem amended_trimEnd_of_lineInv {L : Nat} {line : Str} (h : lineInvC2 L line) :
    amendedWidthOk L (trimEnd line) := by
  rcases h with h | ⟨hlen, hlast⟩ | h
  · exact amended_of_le (le_trans (length_trimEnd_le line) h)
  · left
    have h1 := length_trimEnd_le_lenExcl line
    have h2 : lenExclTrailingSep line ≤ L := by
      rw [lenExclTrailingSep, if_pos hlast]; omega
    exact le_trans (lenExcl_le_strLen _) (le_trans h1 h2)
  · right
    have h3 : trimBoth (trimEnd line) = trimBoth line := by
      rw [trimBoth, trimBoth, trimEnd_idem]
    rw [h3]
    exact trimBoth_wordShape_contains h

theorem amended_replicate_space (L n : Nat) :
    amendedWidthOk L (List.replicate n ' ') := by
  right
  have h1 : trimEnd (List.replicate n ' ') = [] :=
    trimEnd_all_ws (fun c hc => by rw [List.eq_of_mem_replicate hc]; decide)
  rw [trimBoth, h1]
  rfl

theorem amended_word_space (L : Nat) {word : Str}
    (hword : ∀ c ∈ word, c.isWhitespace = false) :
    amendedWidthOk L (word ++ [' ']) := by
  right
  rw [trimBoth, trimEnd_append_ws (fun c hc => by simp at hc; subst hc; decide),
    trimEnd_of_all_nonws hword, trimStart_of_all_nonws hword]
  exact contains_eq_false_of_nonws hword

theorem mem_of_mem_trimEnd {c : Char} {s : Str} (h : c ∈ trimEnd s) : c ∈ s := by
  rw [trimEnd, List.mem_reverse] at h
  exact List.mem_reverse.mp ((List.dropWhile_sublist _).mem h)

theorem mem_of_mem_trimBoth {c : Char} {s : Str} (h : c ∈ trimBoth s) : c ∈ s := by
  rw [trimBoth, trimStart] at h
  exact mem_of_mem_trimEnd ((List.dropWhile_sublist _).mem h)

-- pieces of a split on a single character

theorem splitOnSeq_go_singleton (c : Char) :
    ∀ (u acc : Str), (∀ a ∈ acc, a ≠ c) →
      ∀ w ∈ splitOnSeq.go [c] u acc, ∀ a ∈ w, (a ∈ u ∨ a ∈ acc) ∧ a ≠ c := by
  intro u
  induction u with
  | nil =>
    intro acc hacc w hw a ha
    rw [splitOnSeq.go] at hw
    simp at hw
    subst hw
    rw [List.mem_reverse] at ha
    exact ⟨Or.inr ha, hacc a ha⟩
  | cons d rest ih =>
    intro acc hacc w hw a ha
    rw [splitOnSeq.go] at hw
    split at hw
    · rcases List.mem_cons.mp hw with rfl | hw2
      · rw [List.mem_reverse] at ha
        exact ⟨Or.inr ha, hacc a ha⟩
      · have hw3 : w ∈ splitOnSeq.go [c] rest [] := by simpa using hw2
        have h4 := ih [] (by simp) w hw3 a ha
        rcases h4 with ⟨hmem | habs, hne⟩
        · exact ⟨Or.inl (List.mem_cons_of_mem _ hmem), hne⟩
        · simp at habs
    · rename_i h
      have hdc : d ≠ c := by
        simp [List.isPrefixOf] at h
        exact fun he => h (by rw [he])
      have hacc2 : ∀ a ∈ d :: acc, a ≠ c := by
        intro x hx
        rcases List.mem_cons.mp hx with rfl | hx2
        · exact hdc
        · exact hacc x hx2
      have h5 := ih (d :: acc) hacc2 w hw a ha
      rcases h5 with ⟨hmem | hmemacc, hne⟩
      · exact ⟨Or.inl (List.mem_cons_of_mem _ hmem), hne⟩
      · rcases List.mem_cons.mp hmemacc with rfl | hx
        · exact ⟨Or.inl (List.mem_cons_self _ _), hne⟩
        · exact ⟨Or.inr hx, hne⟩

theorem splitOnSeq_singleton_mem (c : Char) (u : Str) :
    ∀ w ∈ splitOnSeq [c] u, ∀ a ∈ w, a ∈ u ∧ a ≠ c := by
  intro w hw a ha
  rw [splitOnSeq] at hw
  have h := splitOnSeq_go_singleton c u [] (by simp) w hw a ha
  rcases h with ⟨hm | hm, hne⟩
  · exact ⟨hm, hne⟩
  · simp at hm

-- the word-packing loop preserves the invariant

theorem PInvC2_base {L : Nat} {line0 : Str} {output0 : List Str}
    (hline0 : strLen line0 ≤ L) (hout : ∀ ln ∈ output0, amendedWidthOk L ln) :
    PInvC2 L ⟨line0, strLen line0, output0⟩ := by
  rw [PInvC2_mk]
  refine ⟨Or.inl hline0, hout, le_refl _, ?_, ?_⟩
  · rw [show line0.take (strLen line0) = line0 from by simp [strLen]]
    exact amended_of_le hline0
  · rw [show line0.drop (strLen line0) = [] from by simp [strLen]]
    exact amended_nil L

theorem c2_textWordLoop (L n : Nat) (words : List Str)
    (hw : ∀ w ∈ words, ∀ c ∈ w, c.isWhitespace = false) :
    ∀ (line : Str) (l : Nat) (output : List Str),
      PInvC2 L ⟨line, l, output⟩ →
      PInvC2 L (stOfTriple (textWordLoop (List.replicate n ' ') L words line l output)) := by
  induction words with
  | nil =>
    intro line l output hinv
    rw [textWordLoop]
    exact hinv
  | cons word rest ih =>
    intro line l output hinv
    rw [PInvC2_mk] at hinv
    obtain ⟨hline, hout, hl, htake, hdrop⟩ := hinv
    have hwword : ∀ c ∈ word, c.isWhitespace = false := hw word (List.mem_cons_self _ _)
    have hwrest : ∀ w ∈ rest, ∀ c ∈ w, c.isWhitespace = false :=
      fun w hwm => hw w (List.mem_cons_of_mem _ hwm)
    have htw : trimEnd word = word := trimEnd_of_all_nonws hwword
    have hdata : (" ".data : Str) = [' '] := rfl
    rw [textWordLoop]
    by_cases hov : L < strLen line + strLen (trimEnd word)
    · rw [if_pos hov, hdata]
      refine ih hwrest _ _ _ ?_
      rw [PInvC2_mk]
      refine ⟨?_, ?_, ?_, ?_, ?_⟩
      · right; right
        exact ⟨n, word, [' '], Or.inr rfl, hwword, rfl⟩
      · intro ln hln
        rcases List.mem_append.mp hln with h | h
        · exact hout ln h
        · rcases List.mem_singleton.mp h with rfl
          exact amended_trimEnd_of_lineInv hline
      · simp [strLen]
      · rw [show strLen (List.replicate n ' ') = n from by simp [strLen],
          List.append_assoc, List.take_left' (List.length_replicate n ' ')]
        exact amended_replicate_space L n
      · rw [show strLen (List.replicate n ' ') = n from by simp [strLen],
          List.append_assoc, List.drop_left' (List.length_replicate n ' ')]
        exact amended_word_space L hwword
    · rw [if_neg hov, hdata]
      have hfits : strLen line + strLen word ≤ L := by
        rw [htw] at hov; omega
      refine ih hwrest _ _ _ ?_
      rw [PInvC2_mk]
      refine ⟨?_, ?_, ?_, ?_, ?_⟩
      · right; left
        constructor
        · simp only [strLen, List.length_append, List.length_cons, List.length_nil]
          simp only [strLen] at hfits
          omega
        · exact List.getLast?_concat _
      · exact hout
      · simp only [strLen, List.length_append] at *
        omega
      · rw [List.append_assoc, List.take_append_of_le_length hl]
        exact htake
      · rw [List.append_assoc, List.drop_append_of_le_length hl, ← List.append_assoc]
        left
        rw [lenExcl_concat_space]
        simp only [strLen, List.length_append, List.length_drop] at *
        omega

-- the Text arm preserves the invariant

theorem c2_stepText (s : Str) (next : Option TexElement) (L n : Nat)
    (line0 : Str) (output0 : List Str) (st' : PState)
    (hL : 0 < L)
    (hs : ∀ ch ∈ s, ch.isWhitespace = true → ch = ' ')
    (hnext : ∀ cmd, next ≠ some (TexElement.Command cmd))
    (hline0 : strLen line0 ≤ L)
    (hout : ∀ ln ∈ output0, amendedWidthOk L ln)
    (hstep : TexParent.stepText s next L (List.replicate n ' ') line0 (strLen line0)
      output0 = some st') :
    PInvC2 L st' := by
  rw [TexParent.stepText] at hstep
  by_cases ht : trimBoth s ≠ []
  · rw [if_pos ht, if_neg (Nat.pos_iff_ne_zero.mp hL)] at hstep
    by_cases hfit : strLen (trimBoth s) + strLen line0 < L
    · rw [if_pos hfit] at hstep
      have hres : PInvC2 L ⟨line0 ++ trimBoth s ++ " ".data, strLen line0, output0⟩ := by
        have hdata : (" ".data : Str) = [' '] := rfl
        rw [hdata, PInvC2_mk]
        have hlen : strLen (line0 ++ trimBoth s ++ [' '])
            = strLen line0 + strLen (trimBoth s) + 1 := by
          simp only [strLen, List.length_append, List.length_cons, List.length_nil]
        refine ⟨Or.inl (by omega), hout, ?_, ?_, ?_⟩
        · rw [hlen]; omega
        · simp only [strLen]
          rw [List.append_assoc, List.take_append_of_le_length (le_refl _)]
          simp only [List.take_length]
          exact amended_of_le hline0
        · simp only [strLen]
          rw [List.append_assoc, List.drop_append_of_le_length (le_refl _)]
          simp only [List.drop_length, List.nil_append]
          refine amended_of_le ?_
          simp only [strLen, List.length_append, List.length_cons, List.length_nil]
          simp only [strLen] at hfit
          omega
      rcases next with _ | el
      · have hstep2 : some (⟨line0 ++ trimBoth s ++ " ".data, strLen line0, output0⟩ : PState)
            = some st' := hstep
        cases hstep2
        exact hres
      · cases el <;>
          first
            | exact absurd rfl (hnext _)
            | (have hstep2 : some (⟨line0 ++ trimBoth s ++ " ".data, strLen line0,
                  output0⟩ : PState) = some st' := hstep
               cases hstep2
               exact hres)
    · rw [if_neg hfit] at hstep
      have hdata : (" ".data : Str) = [' '] := rfl
      rw [hdata] at hstep
      rcases hp : textWordLoop (List.replicate n ' ') L
          (splitOnSeq [' '] (trimBoth s)) line0 (strLen line0) output0 with ⟨line1, l1, output1⟩
      rw [hp] at hstep
      have hstep2 : some (⟨line1, l1, output1⟩ : PState) = some st' := hstep
      cases hstep2
      have hwords : ∀ w ∈ splitOnSeq [' '] (trimBoth s), ∀ c ∈ w,
          c.isWhitespace = false := by
        intro w hwm c hc
        have h2 := splitOnSeq_singleton_mem ' ' (trimBoth s) w hwm c hc
        have hcs : c ∈ s := mem_of_mem_trimBoth h2.1
        by_contra hws
        exact h2.2 (hs c hcs (by simpa using hws))
      have hloop := c2_textWordLoop L n (splitOnSeq [' '] (trimBoth s)) hwords
        line0 (strLen line0) output0 (PInvC2_base hline0 hout)
      rw [hp] at hloop
      exact hloop
  · rw [if_neg (not_not_intro (not_not.mp ht))] at hstep
    cases hstep
    exact PInvC2_base hline0 hout

-- each Text child of the loop preserves the invariant

theorem c2_formatStep (s : Str) (next : Option TexElement) (i t L : Nat)
    (st st' : PState) (hL : 0 < L)
    (hs : ∀ ch ∈ s, ch.isWhitespace = true → ch = ' ')
    (hnext : ∀ cmd, next ≠ some (TexElement.Command cmd))
    (hinv : PInvC2 L st)
    (hstep : TexParent.formatStep (.Text s) next i t L st = some st') :
    PInvC2 L st' := by
  rw [PInvC2_def] at hinv
  obtain ⟨hline, hout, -, -, -⟩ := hinv
  rw [TexParent.formatStep] at hstep
  by_cases hov : L < strLen st.line
  · rw [if_pos hov] at hstep
    have hstep2 : TexParent.stepText s next L (indent_str i t) []
        (strLen ([] : Str)) (st.output ++ [st.line]) = some st' := hstep
    simp only [indent_str, strRepeat] at hstep2
    refine c2_stepText s next L (i * t) [] (st.output ++ [st.line]) st' hL hs hnext
      (Nat.zero_le L) ?_ hstep2
    intro ln hln
    rcases List.mem_append.mp hln with h | h
    · exact hout ln h
    · rcases List.mem_singleton.mp h with rfl
      exact amended_of_lineInv hline
  · rw [if_neg hov] at hstep
    have hstep2 : TexParent.stepText s next L (indent_str i t) st.line
        (strLen st.line) st.output = some st' := hstep
    simp only [indent_str, strRepeat] at hstep2
    exact c2_stepText s next L (i * t) st.line st.output st' hL hs hnext
      (Nat.le_of_not_lt hov) hout hstep2

theorem c2_formatGo (children : List TexElement) : ∀ (i t L : Nat) (st st' : PState),
    0 < L →
    (∀ c ∈ children, ∃ s, c = TexElement.Text s ∧
      ∀ ch ∈ s, ch.isWhitespace = true → ch = ' ') →
    PInvC2 L st → TexParent.formatGo children i t L st = some st' → PInvC2 L st' := by
  induction children with
  | nil =>
    intro i t L st st' hL hch hinv hgo
    rw [TexParent.formatGo] at hgo
    cases hgo
    exact hinv
  | cons c rest ih =>
    intro i t L st st' hL hch hinv hgo
    rw [TexParent.formatGo] at hgo
    cases hstep : TexParent.formatStep c rest.head? i t L st with
    | none => rw [hstep] at hgo; simp at hgo
    | some st1 =>
      rw [hstep] at hgo
      simp only [Option.some_bind, Option.bind_eq_bind] at hgo
      obtain ⟨s, rfl, hs⟩ := hch c (List.mem_cons_self c rest)
      have hnext : ∀ cmd, rest.head? ≠ some (TexElement.Command cmd) := by
        intro cmd hcon
        cases rest with
        | nil => simp at hcon
        | cons c2 r2 =>
          obtain ⟨s2, hc2, -⟩ := hch c2 (List.mem_cons_of_mem _ (List.mem_cons_self c2 r2))
          rw [List.head?_cons, hc2] at hcon
          simp at hcon
      have hinv1 := c2_formatStep s rest.head? i t L st st1 hL hs hnext hinv hstep
      exact ih i t L st1 st' hL (fun x hx => hch x (List.mem_cons_of_mem _ hx)) hinv1 hgo

/-- C2: the spec claims every line the prose packer emits for Text-only
content fits the configured width (excluding one trailing separator), except
single unsplittable tokens that alone exceed it.  That is false as stated
(see the counterexample); the corrected bound proved here: for a `Parent`
whose children are all `Text` and whose whitespace consists of plain spaces,
and a positive width, every emitted line either fits the width excluding one
trailing separator, or carries at most one word after trimming — the word
itself need not exceed the width, because the final take/drop flush
(tex.rs 438-441) can re-emit a still-indented fragment. -/
theorem textOnly_width_respect (children : List TexElement) (i t L : Nat)
    (out : List Str) (hL : 0 < L)
    (hch : ∀ c ∈ children, ∃ s, c = TexElement.Text s ∧
      ∀ ch ∈ s, ch.isWhitespace = true → ch = ' ')
    (hfmt : TexParent.format (.mk children) i t L = some out) :
    ∀ ln ∈ out, amendedWidthOk L ln := by
  rw [TexParent.format] at hfmt
  cases hgo : TexParent.formatGo children i t L
      ⟨indent_str i t, strLen (indent_str i t), []⟩ with
  | none =>
    rw [hgo] at hfmt
    simp at hfmt
  | some st =>
    rw [hgo] at hfmt
    simp only [Option.some_bind, Option.bind_eq_bind] at hfmt
    have hinit : PInvC2 L ⟨indent_str i t, strLen (indent_str i t), []⟩ := by
      rw [PInvC2_mk]
      refine ⟨?_, by simp, le_refl _, ?_, ?_⟩
      · right; right
        refine ⟨i * t, [], [], Or.inl rfl, by simp, ?_⟩
        simp [indent_str, strRepeat]
      · rw [show (indent_str i t).take (strLen (indent_str i t)) = indent_str i t from by
          simp [strLen]]
        exact Or.inr (by rw [trimBoth_indent_str]; rfl)
      · rw [show (indent_str i t).drop (strLen (indent_str i t)) = [] from by
          simp [strLen]]
        exact amended_nil L
    have hst := c2_formatGo children i t L _ st hL hch hinit hgo
    rw [PInvC2_def] at hst
    obtain ⟨hline, hout, hl, htake, hdrop⟩ := hst
    by_cases h1 : trimBoth st.line = []
    · rw [if_pos h1] at hfmt
      cases hfmt
      exact hout
    · rw [if_neg h1] at hfmt
      by_cases h2 : strLen st.line < L
      · rw [if_pos h2] at hfmt
        cases hfmt
        intro ln hln
        rcases List.mem_append.mp hln with h | h
        · exact hout ln h
        · rcases List.mem_singleton.mp h with rfl
          exact amended_of_le (le_trans (length_trimEnd_le _) (Nat.le_of_lt h2))
      · rw [if_neg h2, if_pos hl] at hfmt
        cases hfmt
        intro ln hln
        rcases List.mem_append.mp hln with h | h
        · exact hout ln h
        · have hz : indent_str 0 t = ([] : Str) := by
            simp [indent_str, strRepeat]
          rw [hz, List.nil_append] at h
          rcases List.mem_cons.mp h with rfl | h2
          · exact htake
          · rcases List.mem_singleton.mp h2 with rfl
            exact hdrop

set_option maxHeartbeats 2000000 in
/-- C2 counterexample: the line `    abc` emitted for `Text "abc abc"` at
indent 1, tabstop 4, width 5 has length 7 with no trailing separator, yet its
only word `abc` does not exceed the width, so the claim's exemption does not
apply: the packer's take/drop flush re-emits the indent with the word. -/
theorem textOnly_width_cex :
    TexParent.format (.mk [.Text "abc abc".data]) 1 4 5
      = some [[], "    abc".data, "    ".data, "abc ".data] ∧
    (5 : Nat) < strLen "abc abc".data ∧
    "    abc".data ∈ [([] : Str), "    abc".data, "    ".data, "abc ".data] ∧
    ¬ claimWidthOk 5 "    abc".data := by
  refine ⟨?_, by decide, by decide, ?_⟩
  · simp [TexParent.format, TexParent.formatGo, TexParent.formatStep,
      TexParent.stepText, textWordLoop, indent_str, strRepeat, strLen, trimBoth,
      trimStart, trimEnd, splitOnSeq, splitOnSeq.go, usizeSub]
  · rw [claimWidthOk]
    simp only [lenExclTrailingSep]
    decide

set_option maxHeartbeats 2000000 in
/-- Witness for the amended C2 on `Text "abc abc"` at budget (1, 4, 5). -/
theorem textOnly_width_respect_witness :
    (0 : Nat) < 5 ∧ ∀ ln ∈ [([] : Str), "    abc".data, "    ".data, "abc ".data],
      amendedWidthOk 5 ln :=
  ⟨by decide, textOnly_width_respect [.Text "abc abc".data] 1 4 5
    [[], "    abc".data, "    ".data, "abc ".data] (by decide)
    (by intro c hc
        rcases List.mem_singleton.mp hc with rfl
        exact ⟨"abc abc".data, rfl, by decide⟩)
    (by simp [TexParent.format, TexParent.formatGo, TexParent.formatStep,
      TexParent.stepText, textWordLoop, indent_str, strRepeat, strLen, trimBoth,
      trimStart, trimEnd, splitOnSeq, splitOnSeq.go, usizeSub])⟩

end TexFmt
